import Mathlib

/-!
Shallow embedding of the `cocotbext.axi4stream` package
(`src/cocotbext/axi4stream/drivers.py` and `src/cocotbext/axi4stream/monitors.py`).

The package contains three cooperative agents over one clocked signal
interface:

* `Axi4StreamMaster.write` (drivers.py, lines 72-144): drives
  `TVALID`/`TDATA`/`TLAST`/side-channel signals, one word per accepted clock
  edge, waiting on `TREADY` when it is present;
* `Axi4StreamSlave._receive_data` (drivers.py, lines 208-243): generates a
  `TREADY` waveform from a configurable delay and consecutive-transfer cap;
* `Axi4Stream._monitor_recv` (monitors.py, lines 84-117): samples the bus on
  every rising clock edge and reconstructs transfers and packets.

Timing model (mirroring the cocotb scheduler the code runs on): signal writes
performed during one clock-edge timestep (`sig <= value`) are applied at the
end of that timestep, so a value written at edge `t` is the one sampled by
every reader that wakes at edge `t+1`.  Readers woken directly by the clock
edge therefore observe the values driven during the previous timestep.
Edge-triggers on data signals (e.g. the slave's `RisingEdge(TVALID)`) fire at
write application, i.e. still within timestep `t`.  We model one timestep as
one application of a step function: each agent reads the previous interval's
values (`sampled`) and/or the current interval's freshly written values, and
writes into the record of values that will be sampled at the next edge.
Machine integers are modelled as `Nat` (cocotb `BinaryValue` truthiness is
"nonzero"); fallible paths return explicit error values.
-/

namespace Axi4StreamModel

/-- The fixed protocol signal vocabulary (`_signals` plus `_optional_signals`
in both drivers.py and monitors.py). -/
inductive SignalName
  | TVALID | TREADY | TDATA | TLAST | TSTRB | TKEEP | TID | TDEST | TUSER
deriving DecidableEq, Repr

open SignalName

/-- `_optional_signals` (drivers.py lines 45-47, monitors.py lines 40-42). -/
def optionalSignals : List SignalName :=
  [TREADY, TDATA, TLAST, TSTRB, TKEEP, TID, TDEST, TUSER]

/-- `_optional_data_signals` (monitors.py lines 44-45): every optional signal
except `TREADY`. -/
def optionalDataSignals : List SignalName :=
  optionalSignals.filter (fun s => s ≠ TREADY)

/-- Which optional signals are present on a concrete bus instance.  `TVALID`
is mandatory (`_signals = ["TVALID"]`), all others are optional. -/
structure Bus where
  hasTREADY : Bool
  hasTDATA : Bool
  hasTLAST : Bool
  hasTSTRB : Bool
  hasTKEEP : Bool
  hasTID : Bool
  hasTDEST : Bool
  hasTUSER : Bool
deriving DecidableEq, Repr

/-- `hasattr(self.bus, signal)`. -/
def Bus.present (b : Bus) : SignalName → Bool
  | TVALID => true
  | TREADY => b.hasTREADY
  | TDATA => b.hasTDATA
  | TLAST => b.hasTLAST
  | TSTRB => b.hasTSTRB
  | TKEEP => b.hasTKEEP
  | TID => b.hasTID
  | TDEST => b.hasTDEST
  | TUSER => b.hasTUSER

/-- A bus on which every optional signal is present. -/
def fullBus : Bus := ⟨true, true, true, true, true, true, true, true⟩

/-- The driven value of every signal line during one clock interval.
Values driven during timestep `t` are the ones sampled at edge `t+1`. -/
structure Sig where
  tvalid : Nat
  tready : Nat
  tdata : Nat
  tlast : Nat
  tstrb : Nat
  tkeep : Nat
  tid : Nat
  tdest : Nat
  tuser : Nat
deriving DecidableEq, Repr

def Sig.get (σ : Sig) : SignalName → Nat
  | TVALID => σ.tvalid
  | TREADY => σ.tready
  | TDATA => σ.tdata
  | TLAST => σ.tlast
  | TSTRB => σ.tstrb
  | TKEEP => σ.tkeep
  | TID => σ.tid
  | TDEST => σ.tdest
  | TUSER => σ.tuser

def Sig.set (σ : Sig) : SignalName → Nat → Sig
  | TVALID, v => { σ with tvalid := v }
  | TREADY, v => { σ with tready := v }
  | TDATA, v => { σ with tdata := v }
  | TLAST, v => { σ with tlast := v }
  | TSTRB, v => { σ with tstrb := v }
  | TKEEP, v => { σ with tkeep := v }
  | TID, v => { σ with tid := v }
  | TDEST, v => { σ with tdest := v }
  | TUSER, v => { σ with tuser := v }

/-- The all-zero signal state. -/
def Sig.zero : Sig := ⟨0, 0, 0, 0, 0, 0, 0, 0, 0⟩

/-- Truthiness of a sampled `BinaryValue`: nonzero. -/
def truthy (n : Nat) : Bool := n ≠ 0

/-! ## Master (`Axi4StreamMaster`, drivers.py) -/

/-- A key of a word dict passed to `write`: either a name from the protocol
vocabulary or a name outside it (which `write` rejects as "not a valid
AXI4-Stream signal"). -/
inductive Key
  | sig : SignalName → Key
  | unknownName : Key
deriving DecidableEq, Repr

/-- One element of the `data` argument of `write`: a plain int (treated as
`{"TDATA": value}`, drivers.py lines 108-110) or a dict. -/
inductive Word
  | int : Nat → Word
  | dict : List (Key × Nat) → Word
deriving DecidableEq, Repr

/-- The dict items iterated by the `for signal, value in word.items()` loop
(drivers.py line 112), after the int-to-dict normalization. -/
def Word.items : Word → List (Key × Nat)
  | .int v => [(.sig TDATA, v)]
  | .dict m => m

/-- The `TestFailure` cases raised inside `write` (drivers.py lines
116-128).  Each carries the transfer index reported in the message. -/
inductive WriteError
  | readyIsDriverInput : Nat → WriteError
  | lastDrivenByDriver : Nat → WriteError
  | notAValidSignal : Nat → WriteError
  | notPresentOnBus : Nat → WriteError
deriving DecidableEq, Repr

/-- The body of the `for signal, value in word.items()` loop (drivers.py
lines 112-128): each item is validated and then driven; on the first failing
item a `TestFailure` is raised, and the items already driven stay driven. -/
def driveItems (bus : Bus) (tlastOnLast : Bool) (idx : Nat) :
    Sig → List (Key × Nat) → Sig × Option WriteError
  | σ, [] => (σ, none)
  | σ, (k, v) :: rest =>
    match k with
    | .unknownName => (σ, some (.notAValidSignal idx))
    | .sig s =>
      if s = TREADY then (σ, some (.readyIsDriverInput idx))
      else if s = TLAST ∧ tlastOnLast then (σ, some (.lastDrivenByDriver idx))
      else if s ∉ optionalSignals then (σ, some (.notAValidSignal idx))
      else if bus.present s then driveItems bus tlastOnLast idx (σ.set s v) rest
      else (σ, some (.notPresentOnBus idx))

/-- The epilogue of `write` (drivers.py lines 141-144): deassert `TLAST`
(when present and driver-owned) and deassert `TVALID`. -/
def finishWrite (bus : Bus) (tlastOnLast : Bool) (σ : Sig) : Sig :=
  let σ1 := if bus.hasTLAST && tlastOnLast then σ.set TLAST 0 else σ
  σ1.set TVALID 0

/-- The control state of one in-progress `write` call, suspended at one of
its `await RisingEdge(self.clock)` points. -/
inductive MState
  /-- Suspended at the initial `sync` edge (drivers.py line 103), with the
  whole word list still to send. -/
  | start : List Word → MState
  /-- The current word's values are driven; `idx` is the index of the next
  word and `rest` the words after the current one.  Suspended at the edge of
  drivers.py line 134/139, about to test acceptance. -/
  | sending : Nat → List Word → MState
  /-- The call returned: epilogue executed. -/
  | mdone : MState
  /-- The call raised `TestFailure`; no further signal writes happen. -/
  | failed : WriteError → MState
deriving DecidableEq, Repr

/-- Drive the next word (drivers.py lines 107-132, one `for` iteration): run
the item loop, then assert `TLAST` on the final word when `tlast_on_last`;
with no word left, run the epilogue instead (the `for` loop ends and lines
141-144 run in the same timestep as the final acceptance). -/
def beginWords (bus : Bus) (tlastOnLast : Bool) (idx : Nat) (σ : Sig) :
    List Word → MState × Sig
  | [] => (.mdone, finishWrite bus tlastOnLast σ)
  | w :: rest =>
    match driveItems bus tlastOnLast idx σ w.items with
    | (σ1, some e) => (.failed e, σ1)
    | (σ1, none) =>
      let σ2 := if bus.hasTLAST && tlastOnLast && rest.isEmpty
                then σ1.set TLAST 1 else σ1
      (.sending (idx + 1) rest, σ2)

/-- The head of `write` once it starts driving (drivers.py lines 105-132):
`TVALID <= 1`, then the first word is driven.  With `sync=False` this runs at
call time, before any clock edge; with `sync=True` it runs at the first
rising edge after the call. -/
def writeBegin (bus : Bus) (tlastOnLast : Bool) (data : List Word) (σ : Sig) :
    MState × Sig :=
  beginWords bus tlastOnLast 0 (σ.set TVALID 1) data

/-- One rising clock edge of the `write` coroutine.  `sampled` holds the
values stable before this edge (what `.value` reads return at the edge);
writes go into `σ`, the values for the coming interval.  The acceptance test
mirrors drivers.py lines 136-139: `not hasattr(self.bus, "TREADY") or
self.bus.TREADY.value`. -/
def masterStep (bus : Bus) (tlastOnLast : Bool) (sampled : Sig)
    (st : MState) (σ : Sig) : MState × Sig :=
  match st with
  | .start data => writeBegin bus tlastOnLast data σ
  | .sending idx rest =>
    if !bus.hasTREADY || truthy (sampled.get TREADY) then
      beginWords bus tlastOnLast idx σ rest
    else (.sending idx rest, σ)
  | .mdone => (.mdone, σ)
  | .failed e => (.failed e, σ)

/-- Whether a default value exists for an optional signal in
`Axi4StreamMaster.__init__` (drivers.py lines 64-70).  For `TSTRB` and
`TKEEP` the code computes `"1" * signal.n_bits` where `signal` is the *name
string*, which has no `n_bits` attribute: the `AttributeError` is caught and
the signal is silently skipped, so those two signals get no default at all.
Every other optional signal defaults to `0`. -/
def masterInitDefault : SignalName → Option Nat
  | TSTRB => none
  | TKEEP => none
  | _ => some 0

/-- `Axi4StreamMaster.__init__` (drivers.py lines 62-70): drive `TVALID` to 0,
then apply `masterInitDefault` to every optional signal present on the bus
(absent signals raise `AttributeError` on `getattr`, which is caught). -/
def masterInit (bus : Bus) (σ : Sig) : Sig :=
  optionalSignals.foldl
    (fun σ s =>
      match masterInitDefault s with
      | none => σ
      | some v => if bus.present s then σ.set s v else σ)
    (σ.set TVALID 0)

/-! ## Slave (`Axi4StreamSlave`, drivers.py) -/

/-- The `tready_delay` argument: `-1` means "always ready" (drivers.py lines
196-198); a nonnegative value is the number of `ClockCycles` waited after
`TVALID` is seen high.  (A callable argument is re-evaluated per occurrence;
the claims fix a constant, which is what we model.) -/
inductive TreadyDelay
  | alwaysReady
  | delay : Nat → TreadyDelay
deriving DecidableEq, Repr

/-- Configuration of `Axi4StreamSlave.__init__`: `tready_delay` and
`consecutive_transfers` (`0` = unlimited, drivers.py lines 181-189). -/
structure SlaveCfg where
  treadyDelay : TreadyDelay
  consecutiveTransfers : Nat
deriving DecidableEq, Repr

/-- The suspension points of `_receive_data` (drivers.py lines 208-243). -/
inductive SState
  /-- At the top of the loop, waiting for `TVALID` high (lines 212-214). -/
  | waitingValid
  /-- In the `First(ClockCycles(delay), FallingEdge(TVALID))` race (lines
  220-227); the `ClockCycles` fires after `k` more edges. -/
  | counting : Nat → SState
  /-- `TREADY` asserted, in the consecutive-transfer race (lines 229-241);
  `some k` means the cap `ClockCycles` fires after `k` more edges, `none`
  means no cap (`consecutive_transfers == 0`, wait only for `TVALID` low). -/
  | ready : Option Nat → SState
deriving DecidableEq, Repr

/-- Evaluate `consecutive_transfers` at the start of a ready run (drivers.py
lines 232-241): `0` selects the uncapped `FallingEdge(TVALID)` wait. -/
def capOf (c : Nat) : Option Nat := if c = 0 then none else some c

/-- Start the `ClockCycles(tready_delay)` wait (drivers.py lines 220-227)
with `TVALID` currently high.  `ClockCycles(clock, 0)` completes after zero
edges, i.e. immediately, so with `d = 0` the slave asserts `TREADY` in the
same timestep and enters the ready run at once. -/
def startDelay (d c : Nat) (σ : Sig) : SState × Sig :=
  if d = 0 then (.ready (capOf c), σ.set TREADY 1)
  else (.counting d, σ)

/-- One timestep of `_receive_data` for a non-sentinel delay `d` and cap
configuration `c`.  The coroutine's `TVALID` waits are edge-triggered on the
signal itself, which fires at write application: the step therefore reads the
`TVALID` value freshly written for the coming interval (`σ.get TVALID`), and
its `TREADY` writes land in `σ` as well. -/
def slaveStep (d c : Nat) (st : SState) (σ : Sig) : SState × Sig :=
  let v := truthy (σ.get TVALID)
  match st with
  | .waitingValid => if v then startDelay d c σ else (.waitingValid, σ)
  | .counting k =>
    if !v then (.waitingValid, σ)
    else if k ≤ 1 then (.ready (capOf c), σ.set TREADY 1)
    else (.counting (k - 1), σ)
  | .ready cap =>
    if !v then (.waitingValid, σ.set TREADY 0)
    else
      match cap with
      | none => (.ready none, σ)
      | some k =>
        if k ≤ 1 then startDelay d c (σ.set TREADY 0)
        else (.ready (some (k - 1)), σ)

/-- `Axi4StreamSlave.__init__` (drivers.py lines 192-206).  Returns the
forked `_receive_data` state (`none` when no coroutine is forked) and the
signal state after the constructor's `setimmediatevalue` calls.  When
`TREADY` is absent on the bus the driver does nothing at all. -/
def slaveInit (bus : Bus) (cfg : SlaveCfg) (σ : Sig) : Option SState × Sig :=
  if !bus.hasTREADY then (none, σ)
  else
    match cfg.treadyDelay with
    | .alwaysReady => (none, σ.set TREADY 1)
    | .delay _ => (some .waitingValid, σ.set TREADY 0)

/-! ## Monitor (`Axi4Stream`, monitors.py) -/

/-- Monitor configuration after a successful `__init__` (`data_type` selects
only the representation of sampled values — `buff` vs `integer` — which we
model uniformly as `Nat`). -/
structure MonCfg where
  packets : Bool
  auxSignals : Bool
deriving DecidableEq, Repr

/-- The `AttributeError` cases of `Axi4Stream.__init__` (monitors.py lines
67-73). -/
inductive MonInitError
  | tlastMissing
  | badDataType
deriving DecidableEq, Repr

/-- `Axi4Stream.__init__` validation (monitors.py lines 67-77): packet mode
requires `TLAST` on the bus; `data_type` must be `"buff"` or `"integer"`. -/
def monitorInit (bus : Bus) (packets auxSignals : Bool) (dataType : String) :
    Except MonInitError MonCfg :=
  if packets && !bus.hasTLAST then .error .tlastMissing
  else if dataType ≠ "buff" ∧ dataType ≠ "integer" then .error .badDataType
  else .ok ⟨packets, auxSignals⟩

/-- `self.bus_optional_signals` (monitors.py lines 79-82): the optional data
signals present on the bus, with `TLAST` excluded when `packets` is true. -/
def busOptionalSignals (bus : Bus) (packets : Bool) : List SignalName :=
  optionalDataSignals.filter
    (fun s => bus.present s && (s ≠ TLAST || !packets))

/-- `get_signal_value` (monitors.py lines 93-95): `None` when the handle is
absent, otherwise the sampled value. -/
def getSignalValue (bus : Bus) (sampled : Sig) (s : SignalName) : Option Nat :=
  if bus.present s then some (sampled.get s) else none

/-- One transaction value as appended to the monitor's packet buffer
(monitors.py lines 105-109): a dict over `bus_optional_signals` when
`aux_signals`, else the scalar `TDATA` sample. -/
inductive MonValue
  | scalar : Option Nat → MonValue
  | dict : List (SignalName × Option Nat) → MonValue
deriving DecidableEq, Repr

/-- One `_recv` delivery: a single transfer (non-packet mode, monitors.py
line 112) or a whole packet (line 115). -/
inductive MonEmit
  | single : MonValue → MonEmit
  | packet : List MonValue → MonEmit
deriving DecidableEq, Repr

/-- The signal names of a transaction value: the dict's keys, or none for a
scalar. -/
def MonValue.keys : MonValue → List SignalName
  | .scalar _ => []
  | .dict l => l.map Prod.fst

/-- `valid_transfer` (monitors.py lines 88-91). -/
def validTransfer (bus : Bus) (sampled : Sig) : Bool :=
  if bus.hasTREADY then
    truthy (sampled.get TVALID) && truthy (sampled.get TREADY)
  else truthy (sampled.get TVALID)

/-- The value sampled for one transfer (monitors.py lines 105-109). -/
def sampleValue (cfg : MonCfg) (bus : Bus) (sampled : Sig) : MonValue :=
  if cfg.auxSignals then
    .dict ((busOptionalSignals bus cfg.packets).map
      (fun s => (s, getSignalValue bus sampled s)))
  else .scalar (getSignalValue bus sampled TDATA)

/-- One rising clock edge of `_monitor_recv` (monitors.py lines 101-116):
sample when the handshake holds, emit the single transfer (non-packet mode)
or the accumulated packet when the sampled `TLAST` is high (packet mode).
Returns the new buffer and the `_recv` deliveries of this edge. -/
def monitorStep (cfg : MonCfg) (bus : Bus) (sampled : Sig)
    (buf : List MonValue) : List MonValue × List MonEmit :=
  if validTransfer bus sampled then
    let buf1 := buf ++ [sampleValue cfg bus sampled]
    if !cfg.packets then ([], [.single (buf1.headD (.scalar none))])
    else if truthy (sampled.get TLAST) then ([], [.packet buf1])
    else (buf1, [])
  else (buf, [])

/-! ## Closed-loop composition

One Master, one Slave and one Monitor on the same bus, multiplexed on the
same clock.  Per timestep: readers woken by the clock edge (the monitor's
sampling and the master's `TREADY` test) see the previous interval's values;
the master's writes are applied before the slave's `TVALID`-edge-triggered
logic observes the line (signal-edge triggers fire at write application). -/

structure SimState where
  sig : Sig
  master : MState
  slave : Option SState
  buf : List MonValue
  out : List MonEmit
deriving DecidableEq, Repr

/-- One rising clock edge of the whole testbench. -/
def simStep (bus : Bus) (mcfg : MonCfg) (scfg : SlaveCfg) (tlastOnLast : Bool)
    (st : SimState) : SimState :=
  let sampled := st.sig
  let mon := monitorStep mcfg bus sampled st.buf
  let ms := masterStep bus tlastOnLast sampled st.master st.sig
  let sl :=
    match st.slave, scfg.treadyDelay with
    | some ss, .delay d =>
      let r := slaveStep d scfg.consecutiveTransfers ss ms.2
      (some r.1, r.2)
    | other, _ => (other, ms.2)
  { sig := sl.2, master := ms.1, slave := sl.1,
    buf := mon.1, out := st.out ++ mon.2 }

/-- Construct Master and Slave on the bus and call
`master.write(data, sync, tlast_on_last=True)`: with `sync=True` the write
suspends at its initial `RisingEdge` (state `MState.start`), with
`sync=False` it starts driving at call time, before any edge. -/
def simInit (bus : Bus) (scfg : SlaveCfg) (data : List Word) (sync : Bool)
    (tlastOnLast : Bool) (σ0 : Sig) : SimState :=
  let σm := masterInit bus σ0
  let sl := slaveInit bus scfg σm
  let ms := if sync then (MState.start data, sl.2)
            else writeBegin bus tlastOnLast data sl.2
  { sig := ms.2, master := ms.1, slave := sl.1, buf := [], out := [] }

/-- The testbench after `n` rising clock edges. -/
def simRun (bus : Bus) (mcfg : MonCfg) (scfg : SlaveCfg) (data : List Word)
    (sync tlastOnLast : Bool) (σ0 : Sig) (n : Nat) : SimState :=
  (simStep bus mcfg scfg tlastOnLast)^[n] (simInit bus scfg data sync tlastOnLast σ0)

/-! ## Slave-only observation runs

To state the backpressure guarantees of `_receive_data` against an arbitrary
transmitter, the slave machine is run against an externally chosen `TVALID`
waveform `vs`: entry `vs[t]` is the value the environment drives during
timestep `t` (sampled at edge `t+1`).  Each step records the pair
(`TVALID` sampled at this edge, `TREADY` sampled at this edge); a transfer is
accepted at an edge iff both are high. -/

/-- The per-edge samples of a slave run: `(sampled TVALID, sampled TREADY)`. -/
def slaveObs (d c : Nat) : SState → Sig → List Bool → List (Bool × Bool)
  | _, _, [] => []
  | ss, σ, v :: vs =>
    let σv := σ.set TVALID (cond v 1 0)
    let r := slaveStep d c ss σv
    (truthy (σ.get TVALID), truthy (σ.get TREADY)) :: slaveObs d c r.1 r.2 vs

/-- The slave state and signal record after consuming a `TVALID` waveform. -/
def slaveAfter (d c : Nat) : SState → Sig → List Bool → SState × Sig
  | ss, σ, [] => (ss, σ)
  | ss, σ, v :: vs =>
    let σv := σ.set TVALID (cond v 1 0)
    let r := slaveStep d c ss σv
    slaveAfter d c r.1 r.2 vs

/-- Acceptance flags: a transfer is accepted at an edge iff sampled `TVALID`
and sampled `TREADY` are both high. -/
def acceptedList (l : List (Bool × Bool)) : List Bool :=
  l.map (fun p => p.1 && p.2)

/-- Invariant of `_receive_data` (non-sentinel delay `d`, cap `c`): `TREADY`
is driven high exactly in the ready phase, the delay counter stays within
`[1, d]` and the cap counter within `[1, c]` (with `none` exactly when
`consecutive_transfers == 0`). -/
def SlaveInv (d c : Nat) : SState → Sig → Prop
  | .waitingValid, σ => truthy (σ.get TREADY) = false
  | .counting k, σ => truthy (σ.get TREADY) = false ∧ 1 ≤ k ∧ k ≤ d
  | .ready none, σ => truthy (σ.get TREADY) = true ∧ c = 0
  | .ready (some j), σ => truthy (σ.get TREADY) = true ∧ 1 ≤ j ∧ j ≤ c

/-- How many further consecutive edges can still be accepted before the cap
forces `TREADY` low: the cap counter while in the ready phase, else `0`. -/
def capRemaining (ss : SState) (σ : Sig) : Nat :=
  if truthy (σ.get TREADY) then
    match ss with
    | .ready (some j) => j
    | _ => 0
  else 0

/-! ## Run abbreviations and expected outputs for the whole-system claims -/

/-- Plain integer transaction values, as `write` receives them. -/
def intWords (ws : List Nat) : List Word := ws.map .int

/-- What a non-packet, non-aux monitor delivers for written integer words. -/
def scalarEmits (ws : List Nat) : List MonEmit :=
  ws.map (fun w => .single (.scalar (some w)))

/-- Closed loop for the order-preservation claim: full bus, non-packet
non-aux monitor, `write(ws, sync=True, tlast_on_last=True)`, arbitrary slave
configuration. -/
def c1Run (scfg : SlaveCfg) (ws : List Nat) (n : Nat) : SimState :=
  simRun fullBus ⟨false, false⟩ scfg (intWords ws) true true Sig.zero n

/-- Closed loop for the packet round-trip claim: full bus, packet-mode
monitor, always-ready slave, `write([1,2,3])`. -/
def c2Run (n : Nat) : SimState :=
  simRun fullBus ⟨true, false⟩ ⟨.alwaysReady, 0⟩ (intWords [1, 2, 3]) true true
    Sig.zero n

/-- Closed loop for the side-channel retention claim: full bus, aux-signal
monitor, always-ready slave, `write([{TDATA:5, TUSER:9}, {TDATA:7}])`. -/
def c6Run (n : Nat) : SimState :=
  simRun fullBus ⟨false, true⟩ ⟨.alwaysReady, 0⟩
    [.dict [(.sig TDATA, 5), (.sig TUSER, 9)], .dict [(.sig TDATA, 7)]]
    true true Sig.zero n

/-- Closed loop for the rejection claims: `write({"TREADY": 1}, sync)`. -/
def cReadyRun (sync : Bool) (n : Nat) : SimState :=
  simRun fullBus ⟨false, false⟩ ⟨.alwaysReady, 0⟩ [.dict [(.sig TREADY, 1)]]
    sync true Sig.zero n

/-- Cap-counter states reachable at the start of a ready run with
configuration `c`. -/
def CapOK (c : Nat) (cap : Option Nat) : Prop :=
  (cap = none ∧ c = 0) ∨ ∃ j, cap = some j ∧ 1 ≤ j ∧ j ≤ c

/-- Reachable testbench configurations of the `c1Run` closed loop with a
non-sentinel slave (`tready_delay = d ≥ 0`, cap `c`), writing the integer
sequence `ws`.  The monitor's deliveries after `m` accepted words are exactly
the first `m` written values. -/
inductive C1Inv (d c : Nat) (ws : List Nat) : SimState → Prop
  /-- Before the sync edge: nothing driven yet. -/
  | phase0 : ∀ σ, σ.get TVALID = 0 → σ.get TREADY = 0 →
      C1Inv d c ws ⟨σ, .start (intWords ws), some .waitingValid, [], []⟩
  /-- Word `m` driven, slave still counting its delay. -/
  | sendCounting : ∀ σ m k, (hm : m < ws.length) → σ.get TVALID = 1 →
      σ.get TREADY = 0 → σ.get TDATA = ws.get ⟨m, hm⟩ → 1 ≤ k → k ≤ d →
      C1Inv d c ws ⟨σ, .sending (m + 1) (intWords (ws.drop (m + 1))),
        some (.counting k), [], scalarEmits (ws.take m)⟩
  /-- Word `m` driven, `TREADY` asserted: the word is accepted at the next
  edge. -/
  | sendReady : ∀ σ m cap, (hm : m < ws.length) → σ.get TVALID = 1 →
      σ.get TREADY = 1 → σ.get TDATA = ws.get ⟨m, hm⟩ → CapOK c cap →
      C1Inv d c ws ⟨σ, .sending (m + 1) (intWords (ws.drop (m + 1))),
        some (.ready cap), [], scalarEmits (ws.take m)⟩
  /-- The write returned; every word has been delivered. -/
  | doneP : ∀ σ, σ.get TVALID = 0 → σ.get TREADY = 0 →
      C1Inv d c ws ⟨σ, .mdone, some .waitingValid, [], scalarEmits ws⟩

/-- Reachable testbench configurations of the `c1Run` closed loop with the
always-ready sentinel slave: `TREADY` is preset high and no slave coroutine
runs, so every driven word is accepted at the next edge. -/
inductive C1SInv (ws : List Nat) : SimState → Prop
  | phase0 : ∀ σ, σ.get TVALID = 0 → σ.get TREADY = 1 →
      C1SInv ws ⟨σ, .start (intWords ws), none, [], []⟩
  | sending : ∀ σ m, (hm : m < ws.length) → σ.get TVALID = 1 →
      σ.get TREADY = 1 → σ.get TDATA = ws.get ⟨m, hm⟩ →
      C1SInv ws ⟨σ, .sending (m + 1) (intWords (ws.drop (m + 1))), none, [],
        scalarEmits (ws.take m)⟩
  | doneP : ∀ σ, σ.get TVALID = 0 → σ.get TREADY = 1 →
      C1SInv ws ⟨σ, .mdone, none, [], scalarEmits ws⟩

/-- Termination measure for the `c1Run` closed loop: an upper bound on the
number of edges left until the write completes. -/
def c1Measure (d : Nat) (st : SimState) : Nat :=
  match st.master, st.slave with
  | .start data, _ => (data.length + 1) * (d + 2)
  | .sending _ rest, some (.counting k) => (rest.length + 1) * (d + 2) + k
  | .sending _ rest, _ => (rest.length + 1) * (d + 2)
  | _, _ => 0

/-! ## Basic signal-record lemmas -/

theorem Sig.get_set (σ : Sig) (s t : SignalName) (v : Nat) :
    (σ.set s v).get t = if t = s then v else σ.get t := by
  cases s <;> cases t <;> simp [Sig.set, Sig.get]

theorem Sig.set_set (σ : Sig) (s : SignalName) (a b : Nat) :
    (σ.set s a).set s b = σ.set s b := by
  cases s <;> simp [Sig.set]

theorem Sig.get_set_same (σ : Sig) (s : SignalName) (v : Nat) :
    (σ.set s v).get s = v := by
  simp [Sig.get_set]

theorem Sig.get_set_other (σ : Sig) (s t : SignalName) (v : Nat) (h : t ≠ s) :
    (σ.set s v).get t = σ.get t := by
  simp [Sig.get_set, h]

/-- The error raised by the word-driving loop depends only on the names in
the dict and the bus, never on the current signal values. -/
theorem driveItems_snd_congr (bus : Bus) (tl : Bool) (idx : Nat)
    (items : List (Key × Nat)) (σ τ : Sig) :
    (driveItems bus tl idx σ items).2 = (driveItems bus tl idx τ items).2 := by
  induction items generalizing σ τ with
  | nil => rfl
  | cons kv rest ih =>
    obtain ⟨k, v⟩ := kv
    cases k with
    | unknownName => rfl
    | sig s =>
      simp only [driveItems]
      split <;> try rfl
      split <;> try rfl
      split <;> try rfl
      split <;> try rfl
      exact ih _ _

/-- Signals whose name is not a key of the dict keep their driven value
through the word-driving loop (drivers.py lines 112-128), including on the
error path. -/
theorem driveItems_frame (bus : Bus) (tl : Bool) (idx : Nat)
    (items : List (Key × Nat)) (σ : Sig) (s : SignalName)
    (h : Key.sig s ∉ items.map Prod.fst) :
    ((driveItems bus tl idx σ items).1).get s = σ.get s := by
  induction items generalizing σ with
  | nil => rfl
  | cons kv rest ih =>
    obtain ⟨k, v⟩ := kv
    simp only [List.map_cons, List.mem_cons] at h
    push_neg at h
    obtain ⟨hk, hrest⟩ := h
    cases k with
    | unknownName => rfl
    | sig t =>
      have hts : s ≠ t := fun hst => hk (by rw [hst])
      simp only [driveItems]
      split
      · rfl
      split
      · rfl
      split
      · rfl
      split
      · rw [ih _ hrest, Sig.get_set_other _ _ _ _ hts]
      · rfl

/-! ## C9, C10: constructor behavior -/

/-- **C9**: constructing a Slave on an interface without `TREADY` succeeds
and is a complete no-op for every `tready_delay`/`consecutive_transfers`
configuration: no signal is driven (the signal state is returned unchanged)
and no `_receive_data` coroutine is forked (drivers.py lines 194-206). -/
theorem c9_slave_no_tready_noop (bus : Bus) (cfg : SlaveCfg) (σ : Sig)
    (h : bus.hasTREADY = false) : slaveInit bus cfg σ = (none, σ) := by
  simp [slaveInit, h]

theorem c9_slave_no_tready_noop_witness :
    slaveInit ⟨false, true, true, true, true, true, true, true⟩
      ⟨.delay 3, 2⟩ Sig.zero = (none, Sig.zero) :=
  c9_slave_no_tready_noop _ _ _ rfl

/-- `Axi4StreamMaster.__init__` in closed form: `TVALID` and every present
optional signal other than `TSTRB`/`TKEEP` are driven to 0; `TSTRB` and
`TKEEP` are never driven (the `"1" * signal.n_bits` default computation
raises `AttributeError` on the name string and is skipped). -/
theorem masterInit_eq (bus : Bus) (σ : Sig) :
    masterInit bus σ =
      ⟨0, if bus.hasTREADY then 0 else σ.tready,
        if bus.hasTDATA then 0 else σ.tdata,
        if bus.hasTLAST then 0 else σ.tlast,
        σ.tstrb, σ.tkeep,
        if bus.hasTID then 0 else σ.tid,
        if bus.hasTDEST then 0 else σ.tdest,
        if bus.hasTUSER then 0 else σ.tuser⟩ := by
  obtain ⟨r, da, l, st, k, i, de, u⟩ := bus
  simp only [masterInit, optionalSignals, masterInitDefault, List.foldl,
    Bus.present, Sig.set]
  cases r <;> cases da <;> cases l <;> cases i <;> cases de <;> cases u <;> rfl

/-- **C10**: after Master construction, `TVALID` is driven to 0 and every
optional signal present on the interface other than `TSTRB` and `TKEEP` is
driven to 0, while `TSTRB` and `TKEEP` receive no default value at all
(drivers.py lines 62-70: the intended all-ones default computes
`"1" * signal.n_bits` on the name string, raising `AttributeError`, which
the `except` clause silently swallows). -/
theorem c10_master_init_defaults (bus : Bus) (σ : Sig) :
    (masterInit bus σ).get TVALID = 0 ∧
    (∀ s ∈ optionalSignals, s ≠ TSTRB → s ≠ TKEEP → bus.present s = true →
      (masterInit bus σ).get s = 0) ∧
    (masterInit bus σ).get TSTRB = σ.get TSTRB ∧
    (masterInit bus σ).get TKEEP = σ.get TKEEP := by
  rw [masterInit_eq]
  refine ⟨rfl, ?_, rfl, rfl⟩
  intro s hs h1 h2 hp
  simp only [optionalSignals, List.mem_cons, List.not_mem_nil, or_false] at hs
  rcases hs with rfl | rfl | rfl | rfl | rfl | rfl | rfl | rfl <;>
    simp_all [Sig.get, Bus.present]

theorem c10_master_init_defaults_witness :
    (masterInit fullBus ⟨5, 5, 5, 5, 5, 5, 5, 5, 5⟩).get TVALID = 0 ∧
    (masterInit fullBus ⟨5, 5, 5, 5, 5, 5, 5, 5, 5⟩).get TUSER = 0 ∧
    (masterInit fullBus ⟨5, 5, 5, 5, 5, 5, 5, 5, 5⟩).get TSTRB = 5 ∧
    (masterInit fullBus ⟨5, 5, 5, 5, 5, 5, 5, 5, 5⟩).get TKEEP = 5 := by
  obtain ⟨h1, h2, h3, h4⟩ := c10_master_init_defaults fullBus ⟨5, 5, 5, 5, 5, 5, 5, 5, 5⟩
  exact ⟨h1, h2 TUSER (by decide) (by decide) (by decide) rfl, h3, h4⟩

/-! ## Monitor step normal forms -/

/-- `_monitor_recv` in packet mode (monitors.py lines 104-116): an accepted
transfer is appended to the buffer; the whole buffer is delivered and
cleared exactly when the sampled `TLAST` is high. -/
theorem monitorStep_packets (aux : Bool) (bus : Bus) (sampled : Sig)
    (buf : List MonValue) :
    monitorStep ⟨true, aux⟩ bus sampled buf =
      if validTransfer bus sampled then
        (if truthy (sampled.get TLAST)
         then ([], [.packet (buf ++ [sampleValue ⟨true, aux⟩ bus sampled])])
         else (buf ++ [sampleValue ⟨true, aux⟩ bus sampled], []))
      else (buf, []) := by
  simp [monitorStep]

/-- `_monitor_recv` in non-packet mode (monitors.py lines 104-113): every
accepted transfer is delivered immediately and the buffer stays empty. -/
theorem monitorStep_single (aux : Bool) (bus : Bus) (sampled : Sig)
    (buf : List MonValue) :
    monitorStep ⟨false, aux⟩ bus sampled buf =
      if validTransfer bus sampled
      then ([], [.single ((buf ++ [sampleValue ⟨false, aux⟩ bus sampled]).headD
        (.scalar none))])
      else (buf, []) := by
  simp [monitorStep]

/-! ## C8: packet mode never reports TLAST in transfer mappings -/

/-- **C8**: with `packets=True` and `aux_signals=True`, `TLAST` is excluded
from `bus_optional_signals` (monitors.py lines 79-82), so the per-transfer
dict sampled by `_monitor_recv` never contains `TLAST` even when it is
present on the bus; the buffer and the emitted packets only ever hold such
sampled dicts; and with `packets=False` (and `TLAST` on the bus) `TLAST` is
included. -/
theorem c8_tlast_excluded_in_packet_mode (bus : Bus) (sampled : Sig)
    (buf : List MonValue) :
    (TLAST ∉ busOptionalSignals bus true) ∧
    (TLAST ∉ MonValue.keys (sampleValue ⟨true, true⟩ bus sampled)) ∧
    (∀ mv ∈ (monitorStep ⟨true, true⟩ bus sampled buf).1,
      mv ∈ buf ∨ mv = sampleValue ⟨true, true⟩ bus sampled) ∧
    (∀ e ∈ (monitorStep ⟨true, true⟩ bus sampled buf).2, ∃ l, e = .packet l ∧
      ∀ mv ∈ l, mv ∈ buf ∨ mv = sampleValue ⟨true, true⟩ bus sampled) ∧
    (bus.hasTLAST = true → TLAST ∈ busOptionalSignals bus false) := by
  have hbos : TLAST ∉ busOptionalSignals bus true := by
    simp [busOptionalSignals, List.mem_filter]
  refine ⟨hbos, ?_, ?_, ?_, ?_⟩
  · simp only [sampleValue, if_pos rfl, MonValue.keys, List.map_map]
    simpa [Function.comp] using hbos
  · intro mv hmv
    rw [monitorStep_packets] at hmv
    split at hmv
    · split at hmv
      · simp at hmv
      · rcases List.mem_append.mp hmv with h | h
        · exact Or.inl h
        · simp at h
          exact Or.inr h
    · exact Or.inl hmv
  · intro e he
    rw [monitorStep_packets] at he
    split at he
    · split at he
      · simp only [List.mem_singleton] at he
        subst he
        refine ⟨_, rfl, ?_⟩
        intro mv hmv
        rcases List.mem_append.mp hmv with h | h
        · exact Or.inl h
        · simp at h
          exact Or.inr h
      · simp at he
    · simp at he
  · intro h
    simp [busOptionalSignals, optionalDataSignals, optionalSignals,
      List.mem_filter, Bus.present, h]

theorem c8_tlast_excluded_in_packet_mode_witness :
    (TLAST ∉ busOptionalSignals fullBus true) ∧
    (TLAST ∈ busOptionalSignals fullBus false) :=
  ⟨(c8_tlast_excluded_in_packet_mode fullBus Sig.zero []).1,
    (c8_tlast_excluded_in_packet_mode fullBus Sig.zero []).2.2.2.2 rfl⟩

/-! ## C4: when the usage error is raised relative to clock edges -/

/-- **C4 counterexample**: the claim says `write` with a mapping containing
`TREADY` fails before any clock edge advances for every `sync` setting.
With `sync=True` (the default) the coroutine first suspends on
`RisingEdge(self.clock)` (drivers.py lines 102-103): after zero edges no
error has been raised (the call is still pending at its sync point) and the
failure only appears once the first edge has advanced. -/
theorem c4_error_not_before_edge_when_sync :
    (cReadyRun true 0).master = .start [.dict [(.sig TREADY, 1)]] ∧
    (cReadyRun true 1).master = .failed (.readyIsDriverInput 0) := by
  constructor <;> decide

/-- **C4 (amended)**: for a word list whose first word's mapping fails
validation (e.g. contains `TREADY`), the `TestFailure` is raised during the
first timestep the write body runs: with `sync=False` that is call time,
before any clock edge; with `sync=True` exactly the one initial alignment
edge precedes it, and no further edge advances before the error. -/
theorem c4_amended_validation_order (bus : Bus) (mcfg : MonCfg)
    (scfg : SlaveCfg) (w : Word) (rest : List Word) (σ0 : Sig)
    (e : WriteError)
    (h : (driveItems bus true 0 Sig.zero w.items).2 = some e) :
    (simInit bus scfg (w :: rest) false true σ0).master = .failed e ∧
    (simInit bus scfg (w :: rest) true true σ0).master = .start (w :: rest) ∧
    (simRun bus mcfg scfg (w :: rest) true true σ0 1).master = .failed e := by
  have h2 : (driveItems bus true 0
      ((slaveInit bus scfg (masterInit bus σ0)).2.set TVALID 1) w.items).2
      = some e :=
    (driveItems_snd_congr bus true 0 w.items _ Sig.zero).trans h
  rcases hd : driveItems bus true 0
      ((slaveInit bus scfg (masterInit bus σ0)).2.set TVALID 1) w.items
    with ⟨σ1, o⟩
  rw [hd] at h2
  simp only at h2
  subst h2
  refine ⟨?_, ?_, ?_⟩
  · simp [simInit, writeBegin, beginWords, hd]
  · simp [simInit]
  · have h1 : simRun bus mcfg scfg (w :: rest) true true σ0 1
        = simStep bus mcfg scfg true (simInit bus scfg (w :: rest) true true σ0) := by
      simp [simRun]
    rw [h1]
    simp [simStep, simInit, masterStep, writeBegin, beginWords, hd]

theorem c4_amended_validation_order_witness :
    (simInit fullBus ⟨.alwaysReady, 0⟩ [.dict [(.sig TREADY, 1)]] false true
      Sig.zero).master = .failed (.readyIsDriverInput 0) ∧
    (simInit fullBus ⟨.alwaysReady, 0⟩ [.dict [(.sig TREADY, 1)]] true true
      Sig.zero).master = .start [.dict [(.sig TREADY, 1)]] ∧
    (simRun fullBus ⟨false, false⟩ ⟨.alwaysReady, 0⟩ [.dict [(.sig TREADY, 1)]]
      true true Sig.zero 1).master = .failed (.readyIsDriverInput 0) :=
  c4_amended_validation_order fullBus ⟨false, false⟩ ⟨.alwaysReady, 0⟩
    (.dict [(.sig TREADY, 1)]) [] Sig.zero (.readyIsDriverInput 0) (by decide)

/-! ## C5: the error path does not restore the driven signal state -/

/-- **C5**: `write` drives `TVALID <= 1` (drivers.py line 105) before
validating the word mappings, and the `TestFailure` paths (lines 112-128)
propagate without any cleanup: after `write({"TREADY": 1}, sync=False)`
aborts, `TVALID` remains driven to 1 at every subsequent clock edge, so the
driven signal state is *not* restored on the error path. -/
theorem c5_error_leaves_tvalid_asserted :
    (cReadyRun false 0).master = .failed (.readyIsDriverInput 0) ∧
    ∀ n, (cReadyRun false n).master = .failed (.readyIsDriverInput 0) ∧
      ((cReadyRun false n).sig).get TVALID = 1 := by
  have key : ∀ n, (cReadyRun false n).master = .failed (.readyIsDriverInput 0)
      ∧ (cReadyRun false n).slave = none
      ∧ ((cReadyRun false n).sig).get TVALID = 1 := by
    intro n
    induction n with
    | zero => refine ⟨by decide, by decide, by decide⟩
    | succ n ih =>
      obtain ⟨h1, h2, h3⟩ := ih
      have hstep : cReadyRun false (n + 1)
          = simStep fullBus ⟨false, false⟩ ⟨.alwaysReady, 0⟩ true
            (cReadyRun false n) := by
        simp [cReadyRun, simRun, Function.iterate_succ_apply']
      rw [hstep]
      refine ⟨?_, ?_, ?_⟩ <;> simp [simStep, masterStep, h1, h2, h3]
  exact ⟨(key 0).1, fun n => ⟨(key n).1, (key n).2.2⟩⟩

/-! ## C6: unsupplied signals keep their previously driven value -/

/-- **C6**: within one `write` call, the word-driving loop re-drives exactly
the signals named in the word's mapping — any signal whose name is not a key
keeps its previously driven value (drivers.py lines 112-128; no implicit
reset between words) — and in the concrete round trip
`write([{TDATA:5, TUSER:9}, {TDATA:7}])` with an always-ready Slave, the
aux-signal Monitor reports `TUSER = 9` for the second word too. -/
theorem c6_side_channel_retention :
    (∀ (bus : Bus) (tl : Bool) (idx : Nat) (items : List (Key × Nat))
      (σ : Sig) (s : SignalName), Key.sig s ∉ items.map Prod.fst →
      ((driveItems bus tl idx σ items).1).get s = σ.get s) ∧
    (c6Run 4).out = [
      .single (.dict [(TDATA, some 5), (TLAST, some 0), (TSTRB, some 0),
        (TKEEP, some 0), (TID, some 0), (TDEST, some 0), (TUSER, some 9)]),
      .single (.dict [(TDATA, some 7), (TLAST, some 1), (TSTRB, some 0),
        (TKEEP, some 0), (TID, some 0), (TDEST, some 0), (TUSER, some 9)])] :=
  ⟨fun bus tl idx items σ s h => driveItems_frame bus tl idx items σ s h,
    by decide⟩

theorem c6_side_channel_retention_witness :
    ((driveItems fullBus true 1 (Sig.zero.set TUSER 9)
      [(.sig TDATA, 7)]).1).get TUSER = (Sig.zero.set TUSER 9).get TUSER :=
  c6_side_channel_retention.1 fullBus true 1 [(.sig TDATA, 7)]
    (Sig.zero.set TUSER 9) TUSER (by decide)

/-! ## C7: VALID falling during the delay count restarts the wait -/

/-- **C7**: while `_receive_data` is counting its initial delay (state
`counting k`, `TREADY` low), if `TVALID` is held high for `j` timesteps and
then falls strictly before the delay elapses (`j + 1 < k`), the
`FallingEdge(TVALID)` branch of the race (drivers.py lines 226-227) wins:
the machine returns to waiting for `TVALID` without error, `TREADY` is never
asserted during the run, and no signal other than `TVALID` is touched.  `k`
is arbitrary, so this covers every `tready_delay` other than the `-1`
sentinel (which never enters this state). -/
theorem c7_valid_falls_during_delay (d c k j : Nat) (σ : Sig)
    (hr : truthy (σ.get TREADY) = false) (hjk : j + 1 < k) :
    slaveAfter d c (.counting k) σ (List.replicate j true ++ [false])
      = (.waitingValid, σ.set TVALID 0) ∧
    ∀ p ∈ slaveObs d c (.counting k) σ (List.replicate j true ++ [false]),
      p.2 = false := by
  induction j generalizing k σ with
  | zero =>
    have hv : truthy ((σ.set TVALID 0).get TVALID) = false := by
      simp [Sig.get_set_same, truthy]
    constructor
    · simp [slaveAfter, slaveStep, hv, Bool.cond_false]
    · intro p hp
      simp only [List.replicate, List.nil_append, slaveObs,
        List.mem_singleton] at hp
      subst hp
      exact hr
  | succ j ih =>
    have hcons : List.replicate (j + 1) true ++ [false]
        = true :: (List.replicate j true ++ [false]) := by
      simp [List.replicate_succ]
    have hv : truthy ((σ.set TVALID 1).get TVALID) = true := by
      simp [Sig.get_set_same, truthy]
    have hk1 : ¬ k ≤ 1 := by omega
    have hstep : slaveStep d c (.counting k) (σ.set TVALID 1)
        = (.counting (k - 1), σ.set TVALID 1) := by
      simp [slaveStep, hv, hk1]
    have hr' : truthy ((σ.set TVALID 1).get TREADY) = false := by
      rw [Sig.get_set_other _ _ _ _ (by decide)]
      exact hr
    have hjk' : j + 1 < k - 1 := by omega
    obtain ⟨iha, ihb⟩ := ih (k - 1) (σ.set TVALID 1) hr' hjk'
    constructor
    · rw [hcons]
      simp only [slaveAfter, Bool.cond_true, hstep]
      rw [iha, Sig.set_set]
    · intro p hp
      rw [hcons] at hp
      simp only [slaveObs, Bool.cond_true, hstep, List.mem_cons] at hp
      rcases hp with rfl | hp
      · exact hr
      · exact ihb p hp

theorem c7_valid_falls_during_delay_witness :
    slaveAfter 5 0 (.counting 5) Sig.zero (List.replicate 2 true ++ [false])
      = (.waitingValid, Sig.zero.set TVALID 0) :=
  (c7_valid_falls_during_delay 5 0 5 2 Sig.zero (by decide) (by decide)).1

/-! ## C2: packet accumulation and the [1,2,3] round trip -/

/-- After the round trip completes (edge 5 of `c2Run`) the testbench state is
a fixpoint: `TVALID` is low, so no further transfer is ever sampled. -/
theorem c2Run_stable (k : Nat) : c2Run (5 + k) = c2Run 5 := by
  induction k with
  | zero => rfl
  | succ k ih =>
    have hstep : c2Run (5 + (k + 1))
        = simStep fullBus ⟨true, false⟩ ⟨.alwaysReady, 0⟩ true (c2Run (5 + k)) := by
      simp [c2Run, simRun, ← Nat.add_assoc, Function.iterate_succ_apply']
    rw [hstep, ih]
    decide

/-- **C2**: in packet mode the monitor accumulates accepted transfers until
the sampled transfer has `TLAST` asserted, and only then delivers the whole
buffered sequence as one packet and clears the buffer (the first conjunct,
monitors.py lines 104-116); concretely, `write([1,2,3])` with
`tlast_on_last=True` against an always-ready Slave yields exactly one
delivered packet `[1,2,3]` — for good, no later delivery ever appears — and
the handshake fires on exactly three edges, with the sampled `TLAST` high
only on the one carrying the value 3. -/
theorem c2_packet_accumulation_round_trip :
    (∀ (aux : Bool) (bus : Bus) (sampled : Sig) (buf : List MonValue),
      monitorStep ⟨true, aux⟩ bus sampled buf =
        if validTransfer bus sampled then
          (if truthy (sampled.get TLAST)
           then ([], [.packet (buf ++ [sampleValue ⟨true, aux⟩ bus sampled])])
           else (buf ++ [sampleValue ⟨true, aux⟩ bus sampled], []))
        else (buf, [])) ∧
    (c2Run 5).out
      = [.packet [.scalar (some 1), .scalar (some 2), .scalar (some 3)]] ∧
    (∀ k, (c2Run (5 + k)).out
      = [.packet [.scalar (some 1), .scalar (some 2), .scalar (some 3)]]) ∧
    ((List.range 6).map (fun i => (validTransfer fullBus ((c2Run i).sig),
        truthy (((c2Run i).sig).get TLAST)))
      = [(false, false), (true, false), (true, false), (true, true),
         (false, false), (false, false)]) := by
  refine ⟨monitorStep_packets, by decide, ?_, by decide⟩
  intro k
  rw [c2Run_stable k]
  decide

/-! ## C3: backpressure bounds of the slave state machine -/

theorem slaveObs_cons (d c : Nat) (ss : SState) (σ : Sig) (v : Bool)
    (vs : List Bool) :
    slaveObs d c ss σ (v :: vs)
      = (truthy (σ.get TVALID), truthy (σ.get TREADY)) ::
        slaveObs d c (slaveStep d c ss (σ.set TVALID (cond v 1 0))).1
          (slaveStep d c ss (σ.set TVALID (cond v 1 0))).2 vs := rfl

theorem slaveAfter_cons (d c : Nat) (ss : SState) (σ : Sig) (v : Bool)
    (vs : List Bool) :
    slaveAfter d c ss σ (v :: vs)
      = slaveAfter d c (slaveStep d c ss (σ.set TVALID (cond v 1 0))).1
          (slaveStep d c ss (σ.set TVALID (cond v 1 0))).2 vs := rfl

theorem slaveAfter_append (d c : Nat) (ss : SState) (σ : Sig)
    (l1 l2 : List Bool) :
    slaveAfter d c ss σ (l1 ++ l2)
      = slaveAfter d c (slaveAfter d c ss σ l1).1 (slaveAfter d c ss σ l1).2
          l2 := by
  induction l1 generalizing ss σ with
  | nil => rfl
  | cons v l1 ih => rw [List.cons_append, slaveAfter_cons, slaveAfter_cons, ih]

theorem truthy_of_ne {n : Nat} (h : n ≠ 0) : truthy n = true := by
  simp [truthy, h]

theorem truthy_of_eq {n : Nat} (h : n = 0) : truthy n = false := by
  simp [truthy, h]

/-- `_receive_data` step with `TVALID` low: every wait resolves through its
`FallingEdge(TVALID)`/`RisingEdge(TVALID)` arm back to the top of the loop,
deasserting `TREADY` when it was held high. -/
theorem slaveStep_not_valid (d c : Nat) (ss : SState) (σ : Sig)
    (h : σ.get TVALID = 0) :
    slaveStep d c ss σ = match ss with
      | .waitingValid => (.waitingValid, σ)
      | .counting _ => (.waitingValid, σ)
      | .ready _ => (.waitingValid, σ.set TREADY 0) := by
  cases ss with
  | waitingValid => simp [slaveStep, truthy, h]
  | counting k => simp [slaveStep, truthy, h]
  | ready cap => cases cap <;> simp [slaveStep, truthy, h]

theorem slaveStep_waiting_valid (d c : Nat) (σ : Sig)
    (h : σ.get TVALID ≠ 0) :
    slaveStep d c .waitingValid σ = startDelay d c σ := by
  simp [slaveStep, truthy, h]

theorem slaveStep_counting_valid (d c k : Nat) (σ : Sig)
    (h : σ.get TVALID ≠ 0) :
    slaveStep d c (.counting k) σ =
      if k ≤ 1 then (.ready (capOf c), σ.set TREADY 1)
      else (.counting (k - 1), σ) := by
  simp [slaveStep, truthy, h]

theorem slaveStep_ready_none_valid (d c : Nat) (σ : Sig)
    (h : σ.get TVALID ≠ 0) :
    slaveStep d c (.ready none) σ = (.ready none, σ) := by
  simp [slaveStep, truthy, h]

theorem slaveStep_ready_some_valid (d c m : Nat) (σ : Sig)
    (h : σ.get TVALID ≠ 0) :
    slaveStep d c (.ready (some m)) σ =
      if m ≤ 1 then startDelay d c (σ.set TREADY 0)
      else (.ready (some (m - 1)), σ) := by
  simp [slaveStep, truthy, h]

/-- The invariant is insensitive to every signal except `TREADY`. -/
theorem slaveInv_congr (d c : Nat) (ss : SState) (σ τ : Sig)
    (h : τ.get TREADY = σ.get TREADY) (hinv : SlaveInv d c ss σ) :
    SlaveInv d c ss τ := by
  cases ss with
  | waitingValid => simpa [SlaveInv, h] using hinv
  | counting k => simpa [SlaveInv, h] using hinv
  | ready cap => cases cap <;> simpa [SlaveInv, h] using hinv

theorem truthy_false_iff (n : Nat) : truthy n = false ↔ n = 0 := by
  simp [truthy]

theorem truthy_true_iff (n : Nat) : truthy n = true ↔ n ≠ 0 := by
  simp [truthy]

/-- In the waiting state the invariant pins `TREADY` low. -/
theorem slaveInv_waiting_tready (d c : Nat) (σ : Sig)
    (hinv : SlaveInv d c .waitingValid σ) : σ.get TREADY = 0 :=
  (truthy_false_iff _).mp hinv

/-- In the delay-counting state the invariant pins `TREADY` low. -/
theorem slaveInv_counting_tready (d c k : Nat) (σ : Sig)
    (hinv : SlaveInv d c (.counting k) σ) : σ.get TREADY = 0 :=
  (truthy_false_iff _).mp hinv.1

/-- One step of `_receive_data` preserves the invariant (for `d ≥ 1`). -/
theorem slaveInv_step (d c : Nat) (hd : 1 ≤ d) (ss : SState) (σ : Sig)
    (hinv : SlaveInv d c ss σ) :
    SlaveInv d c (slaveStep d c ss σ).1 (slaveStep d c ss σ).2 := by
  have hd0 : d ≠ 0 := by omega
  by_cases hv : σ.get TVALID = 0
  · rw [slaveStep_not_valid d c ss σ hv]
    cases ss with
    | waitingValid => exact hinv
    | counting k => exact hinv.1
    | ready cap =>
      cases cap <;> simp [SlaveInv, Sig.get_set_same, truthy]
  · cases ss with
    | waitingValid =>
      rw [slaveStep_waiting_valid d c σ hv]
      simp only [startDelay, if_neg hd0]
      exact ⟨hinv, by omega, by omega⟩
    | counting k =>
      obtain ⟨h1, h2, h3⟩ := hinv
      rw [slaveStep_counting_valid d c k σ hv]
      by_cases hk : k ≤ 1
      · rw [if_pos hk]
        simp only [capOf]
        by_cases hc : c = 0
        · rw [if_pos hc]
          refine ⟨?_, hc⟩
          simp [Sig.get_set_same, truthy]
        · rw [if_neg hc]
          refine ⟨?_, by omega, by omega⟩
          simp [Sig.get_set_same, truthy]
      · rw [if_neg hk]
        exact ⟨h1, by omega, by omega⟩
    | ready cap =>
      cases cap with
      | none =>
        rw [slaveStep_ready_none_valid d c σ hv]
        exact hinv
      | some m =>
        obtain ⟨h1, h2, h3⟩ := hinv
        rw [slaveStep_ready_some_valid d c m σ hv]
        by_cases hm : m ≤ 1
        · rw [if_pos hm]
          simp only [startDelay, if_neg hd0]
          refine ⟨?_, by omega, by omega⟩
          simp [Sig.get_set_same, truthy]
        · rw [if_neg hm]
          exact ⟨h1, by omega, by omega⟩

/-- The invariant holds after consuming any `TVALID` waveform. -/
theorem slaveInv_after (d c : Nat) (hd : 1 ≤ d) (ss : SState) (σ : Sig)
    (hinv : SlaveInv d c ss σ) (vs : List Bool) :
    SlaveInv d c (slaveAfter d c ss σ vs).1 (slaveAfter d c ss σ vs).2 := by
  induction vs generalizing ss σ with
  | nil => exact hinv
  | cons v vs ih =>
    rw [slaveAfter_cons]
    refine ih _ _ (slaveInv_step d c hd _ _ ?_)
    refine slaveInv_congr d c ss _ _ ?_ hinv
    exact Sig.get_set_other _ _ _ _ (by decide)

/-- Dropping `n` observation entries corresponds to running the machine `n`
steps ahead. -/
theorem slaveObs_drop (d c : Nat) (ss : SState) (σ : Sig) (vs : List Bool)
    (n : Nat) :
    (slaveObs d c ss σ vs).drop n
      = slaveObs d c (slaveAfter d c ss σ (vs.take n)).1
          (slaveAfter d c ss σ (vs.take n)).2 (vs.drop n) := by
  induction vs generalizing ss σ n with
  | nil => simp [slaveObs, slaveAfter]
  | cons v vs ih =>
    cases n with
    | zero => simp [slaveAfter]
    | succ n =>
      rw [slaveObs_cons, List.take_succ_cons, slaveAfter_cons,
        List.drop_succ_cons]
      exact ih _ _ n

theorem acceptedList_get (l : List (Bool × Bool)) (i : Nat) :
    (acceptedList l).get? i = (l.get? i).map (fun p => p.1 && p.2) := by
  simp [acceptedList]

/-- The first observation of a run samples the incoming `TREADY`. -/
theorem slaveObs_head (d c : Nat) (ss : SState) (σ : Sig) (vs : List Bool)
    (p : Bool × Bool) (h : (slaveObs d c ss σ vs).get? 0 = some p) :
    p.2 = truthy (σ.get TREADY) := by
  cases vs with
  | nil => simp [slaveObs] at h
  | cons v vs =>
    rw [slaveObs_cons] at h
    simp only [List.get?_cons_zero, Option.some_inj] at h
    rw [← h]

/-- Under the invariant, at most `capRemaining` further consecutive edges can
be accepted. -/
theorem capCore (d c : Nat) (hd : 1 ≤ d) (hc : 1 ≤ c) (vs : List Bool)
    (ss : SState) (σ : Sig) (hinv : SlaveInv d c ss σ) (j : Nat)
    (hacc : ∀ i < j, (acceptedList (slaveObs d c ss σ vs)).get? i
      = some true) :
    j ≤ capRemaining ss σ := by
  induction vs generalizing ss σ j with
  | nil =>
    cases j with
    | zero => exact Nat.zero_le _
    | succ j =>
      have h0 := hacc 0 (by omega)
      simp [slaveObs, acceptedList] at h0
  | cons v vs ih =>
    cases j with
    | zero => exact Nat.zero_le _
    | succ j =>
      have h0 := hacc 0 (by omega)
      rw [slaveObs_cons, acceptedList_get] at h0
      simp only [List.get?_cons_zero, Option.map] at h0
      have h0' : truthy (σ.get TVALID) && truthy (σ.get TREADY) = true := by
        simpa using h0
      have htr : truthy (σ.get TREADY) = true := by
        revert h0'
        cases truthy (σ.get TVALID) <;> cases truthy (σ.get TREADY) <;> simp
      have htr' : σ.get TREADY ≠ 0 := by
        simpa [truthy] using htr
      -- under the invariant, TREADY high forces the capped ready state
      rcases ss with _ | k | cap
      · exact absurd (slaveInv_waiting_tready d c _ hinv) htr'
      · exact absurd (slaveInv_counting_tready d c k _ hinv) htr'
      · rcases cap with _ | m
        · obtain ⟨_, hc0⟩ := hinv
          omega
        · have hm1 : 1 ≤ m := hinv.2.1
          have hmc : m ≤ c := hinv.2.2
          set σv := σ.set TVALID (cond v 1 0) with hσv
          have hσtr : σv.get TREADY = σ.get TREADY :=
            Sig.get_set_other _ _ _ _ (by decide)
          have hinv' : SlaveInv d c (.ready (some m)) σv :=
            slaveInv_congr d c _ σ _ hσtr hinv
          have hshift : ∀ i < j,
              (acceptedList (slaveObs d c
                (slaveStep d c (.ready (some m)) σv).1
                (slaveStep d c (.ready (some m)) σv).2 vs)).get? i
              = some true := by
            intro i hi
            have hi1 := hacc (i + 1) (by omega)
            rw [slaveObs_cons, acceptedList_get, List.get?_cons_succ] at hi1
            rw [acceptedList_get]
            exact hi1
          have hle := ih (slaveStep d c (.ready (some m)) σv).1
            (slaveStep d c (.ready (some m)) σv).2
            (slaveInv_step d c hd _ _ hinv') j hshift
          have hcap : capRemaining (.ready (some m)) σ = m := by
            simp [capRemaining, htr]
          rw [hcap]
          -- compute the step taken and hence the shifted cap bound
          by_cases hvv : σv.get TVALID = 0
          · rw [slaveStep_not_valid d c _ σv hvv] at hle
            simp [capRemaining, Sig.get_set_same, truthy] at hle
            omega
          · rw [slaveStep_ready_some_valid d c m σv hvv] at hle
            by_cases hm : m ≤ 1
            · rw [if_pos hm] at hle
              have hd0 : d ≠ 0 := by omega
              simp [startDelay, if_neg hd0, capRemaining,
                Sig.get_set_same, truthy] at hle
              omega
            · rw [if_neg hm] at hle
              have htrv : truthy (σv.get TREADY) = true := by
                rw [hσtr]
                exact htr
              simp [capRemaining, htrv] at hle
              omega

/-- An accepted transfer at the first observed edge means the incoming
`TREADY` was high. -/
theorem accepted_head_tready (d c : Nat) (ss : SState) (σ : Sig)
    (vs : List Bool)
    (h : (acceptedList (slaveObs d c ss σ vs)).get? 0 = some true) :
    truthy (σ.get TREADY) = true := by
  rw [acceptedList_get] at h
  cases hobs : (slaveObs d c ss σ vs).get? 0 with
  | none => rw [hobs] at h; simp at h
  | some q =>
    rw [hobs] at h
    have hq : q.1 && q.2 = true := by simpa using h
    have h2 := slaveObs_head d c ss σ vs q hobs
    have hq2 : q.2 = true := by
      revert hq
      cases q.1 <;> cases q.2 <;> simp
    rw [← h2, hq2]

/-- Under the invariant the cap counter never exceeds `c`. -/
theorem capRemaining_le (d c : Nat) (ss : SState) (σ : Sig)
    (hinv : SlaveInv d c ss σ) : capRemaining ss σ ≤ c := by
  cases ss with
  | waitingValid =>
    have := slaveInv_waiting_tready d c σ hinv
    simp [capRemaining, truthy, this]
  | counting k =>
    have := slaveInv_counting_tready d c k σ hinv
    simp [capRemaining, truthy, this]
  | ready cap =>
    cases cap with
    | none => simp [capRemaining]
    | some j =>
      have := hinv.2.2
      simp only [capRemaining]
      split
      · exact this
      · omega

/-- From a capped ready run that sustains `m` consecutive accepted edges,
the very next edge samples `TREADY` low (for `d ≥ 1`: the restart first
deasserts `TREADY` for at least one whole interval). -/
theorem capExact (d c : Nat) (hd : 1 ≤ d) (vs : List Bool) (m : Nat)
    (σ : Sig) (hm : 1 ≤ m) (htr : σ.get TREADY ≠ 0)
    (hacc : ∀ i < m, (acceptedList
      (slaveObs d c (.ready (some m)) σ vs)).get? i = some true) :
    ∀ p, (slaveObs d c (.ready (some m)) σ vs).get? m = some p →
      p.2 = false := by
  induction vs generalizing m σ with
  | nil =>
    intro p hp
    simp [slaveObs] at hp
  | cons v vs ih =>
    intro p hp
    cases m with
    | zero => omega
    | succ n =>
      rw [slaveObs_cons, List.get?_cons_succ] at hp
      set σv := σ.set TVALID (cond v 1 0) with hσv
      have hσtr : σv.get TREADY = σ.get TREADY :=
        Sig.get_set_other _ _ _ _ (by decide)
      by_cases hvv : σv.get TVALID = 0
      · rw [slaveStep_not_valid d c _ σv hvv] at hp
        cases n with
        | zero =>
          have hhead := slaveObs_head d c _ _ vs p hp
          rw [hhead, Sig.get_set_same]
          rfl
        | succ n2 =>
          have h1 := hacc 1 (by omega)
          rw [slaveObs_cons, acceptedList_get, List.get?_cons_succ,
            ← acceptedList_get] at h1
          rw [slaveStep_not_valid d c _ σv hvv] at h1
          have := accepted_head_tready d c _ _ vs h1
          rw [Sig.get_set_same] at this
          simp [truthy] at this
      · rw [slaveStep_ready_some_valid d c (n + 1) σv hvv] at hp
        by_cases hn : n + 1 ≤ 1
        · rw [if_pos hn] at hp
          have hd0 : d ≠ 0 := by omega
          simp only [startDelay, if_neg hd0] at hp
          have hn0 : n = 0 := by omega
          subst hn0
          have hhead := slaveObs_head d c _ _ vs p hp
          rw [hhead, Sig.get_set_same]
          rfl
        · rw [if_neg hn] at hp
          have hn1 : 1 ≤ n := by omega
          have hacc' : ∀ i < n, (acceptedList
              (slaveObs d c (.ready (some n)) σv vs)).get? i = some true := by
            intro i hi
            have := hacc (i + 1) (by omega)
            rw [slaveObs_cons, acceptedList_get, List.get?_cons_succ,
              ← acceptedList_get] at this
            rw [slaveStep_ready_some_valid d c (n + 1) σv hvv,
              if_neg hn] at this
            simpa using this
          have htr' : σv.get TREADY ≠ 0 := by
            rw [hσtr]
            exact htr
          have := ih n σv hn1 htr' hacc' p
          simp only [Nat.add_sub_cancel] at hp
          exact this hp

/-- From a `TREADY`-low waiting or counting state, no transfer can be
accepted for (respectively) `d + 1` edges or as long as the delay counter
has not elapsed: `TREADY` stays low throughout. -/
theorem lowCore (d c : Nat) (vs : List Bool) (ss : SState) (σ : Sig)
    (htr : σ.get TREADY = 0) (m : Nat)
    (hcase : (ss = .waitingValid ∧ m ≤ d) ∨
      (∃ k, ss = .counting k ∧ m + 1 ≤ k ∧ k ≤ d)) :
    (acceptedList (slaveObs d c ss σ vs)).get? m ≠ some true := by
  induction vs generalizing ss σ m with
  | nil =>
    intro h
    simp [slaveObs, acceptedList] at h
  | cons v vs ih =>
    intro hcontra
    cases m with
    | zero =>
      have := accepted_head_tready d c ss σ (v :: vs) hcontra
      rw [truthy_true_iff] at this
      exact this htr
    | succ n =>
      rw [slaveObs_cons, acceptedList_get, List.get?_cons_succ,
        ← acceptedList_get] at hcontra
      set σv := σ.set TVALID (cond v 1 0) with hσv
      have hσtr : σv.get TREADY = 0 := by
        rw [Sig.get_set_other _ _ _ _ (by decide)]
        exact htr
      rcases hcase with ⟨rfl, hmd⟩ | ⟨k, rfl, hk1, hk2⟩
      · by_cases hvv : σv.get TVALID = 0
        · rw [slaveStep_not_valid d c _ σv hvv] at hcontra
          exact ih _ _ hσtr n (Or.inl ⟨rfl, by omega⟩) hcontra
        · rw [slaveStep_waiting_valid d c σv hvv] at hcontra
          have hd0 : d ≠ 0 := by omega
          simp only [startDelay, if_neg hd0] at hcontra
          exact ih _ _ hσtr n (Or.inr ⟨d, rfl, by omega, le_refl d⟩) hcontra
      · by_cases hvv : σv.get TVALID = 0
        · rw [slaveStep_not_valid d c _ σv hvv] at hcontra
          exact ih _ _ hσtr n (Or.inl ⟨rfl, by omega⟩) hcontra
        · rw [slaveStep_counting_valid d c k σv hvv] at hcontra
          have hk : ¬ k ≤ 1 := by omega
          rw [if_neg hk] at hcontra
          exact ih _ _ hσtr n (Or.inr ⟨k - 1, rfl, by omega, by omega⟩)
            hcontra

/-- A step consuming `TVALID` low lands in the waiting state with `TREADY`
low (the defensive-restart transition). -/
theorem falseStep (d c : Nat) (ss : SState) (σ : Sig)
    (hinv : SlaveInv d c ss σ) (hvv : σ.get TVALID = 0) :
    (slaveStep d c ss σ).1 = .waitingValid ∧
    ((slaveStep d c ss σ).2).get TREADY = 0 := by
  cases ss with
  | waitingValid =>
    rw [slaveStep_not_valid d c _ σ hvv]
    exact ⟨rfl, slaveInv_waiting_tready d c σ hinv⟩
  | counting k =>
    rw [slaveStep_not_valid d c _ σ hvv]
    exact ⟨rfl, slaveInv_counting_tready d c k σ hinv⟩
  | ready cap =>
    rw [slaveStep_not_valid d c _ σ hvv]
    exact ⟨rfl, by simp [Sig.get_set_same]⟩

/-- **C3 counterexample**: with `tready_delay = 0` (not the always-ready
sentinel) and `consecutive_transfers = 1`, the cap produces no observable
`READY`-low cycle: at cap expiry `_receive_data` writes `TREADY <= 0`, the
loop re-enters, `ClockCycles(clock, 0)` completes after zero edges, and
`TREADY <= 1` is written in the same timestep — the cached writes coalesce,
so `TREADY` is sampled high on every following edge.  Driving `TVALID` high
for five timesteps yields accepted transfers on consecutive edges 1 and 2
(more than `c = 1` consecutive) while the sampled `TREADY` sequence contains
no low cycle after it first rises, refuting the claim at `d = 0`. -/
theorem c3_counterexample_zero_delay :
    (acceptedList (slaveObs 0 1 .waitingValid Sig.zero
      (List.replicate 5 true))).get? 1 = some true ∧
    (acceptedList (slaveObs 0 1 .waitingValid Sig.zero
      (List.replicate 5 true))).get? 2 = some true ∧
    (slaveObs 0 1 .waitingValid Sig.zero (List.replicate 5 true)).map
      Prod.snd = [false, true, true, true, true] := by
  refine ⟨by decide, by decide, by decide⟩

/-- **C3 (amended: `d ≥ 1`)**: for a Slave with `tready_delay = d ≥ 1` and
`consecutive_transfers = c ≥ 1`, against an arbitrary `TVALID` waveform
`vs`: (1) there are never `c + 1` consecutively accepted edges; (2) after
`c` consecutively accepted edges the very next edge samples `TREADY` low;
(3) after `TVALID` rises (at the start of the waveform or following a
timestep with `TVALID` low), no transfer is accepted sooner than `d` edges
later.  (At `d = 0` property (1) fails, see the counterexample: the
zero-delay restart rewrites `TREADY` high within the cap-expiry timestep.) -/
theorem c3_backpressure_bounds (d c : Nat) (hd : 1 ≤ d) (hc : 1 ≤ c)
    (vs : List Bool) :
    (∀ n, ¬ ∀ i < c + 1,
      (acceptedList (slaveObs d c .waitingValid Sig.zero vs)).get? (n + i)
        = some true) ∧
    (∀ n, (∀ i < c,
      (acceptedList (slaveObs d c .waitingValid Sig.zero vs)).get? (n + i)
        = some true) →
      ∀ p, (slaveObs d c .waitingValid Sig.zero vs).get? (n + c) = some p →
        p.2 = false) ∧
    (∀ t, (t = 0 ∨ vs.get? (t - 1) = some false) →
      ∀ i, i ≤ d →
        (acceptedList (slaveObs d c .waitingValid Sig.zero vs)).get? (t + i)
          ≠ some true) := by
  have hinv0 : SlaveInv d c .waitingValid Sig.zero := by
    simp [SlaveInv, truthy, Sig.zero, Sig.get]
  have hconv : ∀ n i, (acceptedList (slaveObs d c
      (slaveAfter d c .waitingValid Sig.zero (vs.take n)).1
      (slaveAfter d c .waitingValid Sig.zero (vs.take n)).2
      (vs.drop n))).get? i
      = (acceptedList (slaveObs d c .waitingValid Sig.zero vs)).get? (n + i)
      := by
    intro n i
    rw [← slaveObs_drop, acceptedList_get, acceptedList_get, List.get?_drop]
  have hconvRaw : ∀ n i, (slaveObs d c
      (slaveAfter d c .waitingValid Sig.zero (vs.take n)).1
      (slaveAfter d c .waitingValid Sig.zero (vs.take n)).2
      (vs.drop n)).get? i
      = (slaveObs d c .waitingValid Sig.zero vs).get? (n + i) := by
    intro n i
    rw [← slaveObs_drop, List.get?_drop]
  refine ⟨?_, ?_, ?_⟩
  · -- (1) no c+1 consecutive accepted edges
    intro n hcontra
    have hinv' := slaveInv_after d c hd _ _ hinv0 (vs.take n)
    have hacc' : ∀ i < c + 1, (acceptedList (slaveObs d c
        (slaveAfter d c .waitingValid Sig.zero (vs.take n)).1
        (slaveAfter d c .waitingValid Sig.zero (vs.take n)).2
        (vs.drop n))).get? i = some true := by
      intro i hi
      rw [hconv]
      exact hcontra i hi
    have h1 := capCore d c hd hc (vs.drop n) _ _ hinv' (c + 1) hacc'
    have h2 := capRemaining_le d c _ _ hinv'
    omega
  · -- (2) after c consecutive accepted edges, READY is sampled low
    intro n hacc p hp
    have hinv' := slaveInv_after d c hd _ _ hinv0 (vs.take n)
    have hacc' : ∀ i < c, (acceptedList (slaveObs d c
        (slaveAfter d c .waitingValid Sig.zero (vs.take n)).1
        (slaveAfter d c .waitingValid Sig.zero (vs.take n)).2
        (vs.drop n))).get? i = some true := by
      intro i hi
      rw [hconv]
      exact hacc i hi
    have htr : truthy ((slaveAfter d c .waitingValid Sig.zero
        (vs.take n)).2.get TREADY) = true :=
      accepted_head_tready d c _ _ _ (hacc' 0 (by omega))
    have htr' : (slaveAfter d c .waitingValid Sig.zero
        (vs.take n)).2.get TREADY ≠ 0 := (truthy_true_iff _).mp htr
    rcases hss : (slaveAfter d c .waitingValid Sig.zero (vs.take n)).1
      with _ | k | cap
    · rw [hss] at hinv'
      exact absurd (slaveInv_waiting_tready d c _ hinv') htr'
    · rw [hss] at hinv'
      exact absurd (slaveInv_counting_tready d c k _ hinv') htr'
    · rcases cap with _ | m
      · rw [hss] at hinv'
        obtain ⟨_, hc0⟩ := hinv'
        omega
      · rw [hss] at hinv'
        have hm1 : 1 ≤ m := hinv'.2.1
        have hmc : m ≤ c := hinv'.2.2
        rw [hss] at hacc'
        have hcapc := capCore d c hd hc (vs.drop n) (.ready (some m))
          (slaveAfter d c .waitingValid Sig.zero (vs.take n)).2 hinv' c hacc'
        have hcap : capRemaining (.ready (some m))
            (slaveAfter d c .waitingValid Sig.zero (vs.take n)).2 = m := by
          simp [capRemaining, htr]
        rw [hcap] at hcapc
        have hmeq : c = m := by omega
        subst hmeq
        rw [← hconvRaw n c, hss] at hp
        exact capExact d c hd (vs.drop n) c _ hm1 htr' hacc' p hp
  · -- (3) no acceptance sooner than d edges after a VALID rise
    intro t ht i hi
    by_cases ht0 : t = 0
    · subst ht0
      have := lowCore d c vs .waitingValid Sig.zero rfl i
        (Or.inl ⟨rfl, hi⟩)
      simpa using this
    · have hf : vs.get? (t - 1) = some false := by
        rcases ht with h | h
        · exact absurd h ht0
        · exact h
      obtain ⟨t1, rfl⟩ : ∃ t1, t = t1 + 1 :=
        ⟨t - 1, by omega⟩
      have htake : vs.take (t1 + 1) = vs.take t1 ++ [false] := by
        rw [List.take_succ]
        have hf2 : vs[t1]? = some false := by
          rw [← List.get?_eq_getElem?]
          simpa using hf
        rw [hf2]
        rfl
      have hinv1 := slaveInv_after d c hd _ _ hinv0 (vs.take t1)
      have hardy : (slaveAfter d c .waitingValid Sig.zero
          (vs.take (t1 + 1))).1 = .waitingValid ∧
          ((slaveAfter d c .waitingValid Sig.zero
            (vs.take (t1 + 1))).2).get TREADY = 0 := by
        rw [htake, slaveAfter_append, slaveAfter_cons]
        have hvv : ((slaveAfter d c .waitingValid Sig.zero (vs.take t1)).2.set
            TVALID (cond false 1 0)).get TVALID = 0 := by
          simp [Sig.get_set_same]
        have hinv1' : SlaveInv d c
            (slaveAfter d c .waitingValid Sig.zero (vs.take t1)).1
            ((slaveAfter d c .waitingValid Sig.zero (vs.take t1)).2.set
              TVALID (cond false 1 0)) := by
          refine slaveInv_congr d c _ _ _ ?_ hinv1
          exact Sig.get_set_other _ _ _ _ (by decide)
        obtain ⟨hA, hB⟩ := falseStep d c _ _ hinv1' hvv
        exact ⟨hA, hB⟩
      intro hcontra
      rw [← hconv (t1 + 1) i] at hcontra
      rw [hardy.1] at hcontra
      exact lowCore d c (vs.drop (t1 + 1)) .waitingValid _ hardy.2 i
        (Or.inl ⟨rfl, hi⟩) hcontra

theorem c3_backpressure_bounds_witness :
    (acceptedList (slaveObs 1 1 .waitingValid Sig.zero
      [true, true, true])).get? (0 + 0) ≠ some true :=
  (c3_backpressure_bounds 1 1 (by decide) (by decide)
    [true, true, true]).2.2 0 (Or.inl rfl) 0 (by decide)

/-! ## C1: order preservation of the full closed loop

Support lemmas: how `write` drives plain integer words on the full bus, and
how the non-packet scalar monitor accounts for them. -/

/-- Driving a plain integer word on the full bus: `{"TDATA": v}` passes
validation and sets only `TDATA`. -/
theorem driveItems_int (tl : Bool) (idx : Nat) (σ : Sig) (v : Nat) :
    driveItems fullBus tl idx σ (Word.int v).items = (σ.set TDATA v, none) := by
  simp [driveItems, Word.items, optionalSignals, fullBus, Bus.present]

/-- One `for` iteration of `write` on an integer word (full bus,
`tlast_on_last=True`): drive `TDATA`, assert `TLAST` iff it is the final
word. -/
theorem beginWords_int (idx : Nat) (σ : Sig) (w : Nat) (ws : List Nat) :
    beginWords fullBus true idx σ (intWords (w :: ws))
      = (.sending (idx + 1) (intWords ws),
          if ws.isEmpty then (σ.set TDATA w).set TLAST 1
          else σ.set TDATA w) := by
  have hd := driveItems_int true idx σ w
  cases ws with
  | nil =>
    simp only [intWords, List.map_cons, List.map_nil]
    simp only [beginWords, hd]
    simp [fullBus]
  | cons a l =>
    simp only [intWords, List.map_cons]
    simp only [beginWords, hd]
    simp [fullBus, intWords]

/-- The `write` epilogue on the full bus. -/
theorem beginWords_nil (idx : Nat) (σ : Sig) :
    beginWords fullBus true idx σ (intWords [])
      = (.mdone, (σ.set TLAST 0).set TVALID 0) := by
  simp [intWords, beginWords, finishWrite, fullBus]

/-- The non-packet scalar monitor on the full bus, starting from the empty
buffer it always keeps. -/
theorem monitorStep_c1 (sampled : Sig) :
    monitorStep ⟨false, false⟩ fullBus sampled []
      = if validTransfer fullBus sampled
        then ([], [.single (.scalar (some (sampled.get TDATA)))])
        else ([], []) := by
  rw [monitorStep_single]
  simp [sampleValue, getSignalValue, fullBus, Bus.present]

theorem validTransfer_fullBus (sampled : Sig) :
    validTransfer fullBus sampled
      = (truthy (sampled.get TVALID) && truthy (sampled.get TREADY)) := by
  simp [validTransfer, fullBus]

/-- Extending the delivered prefix by the next written word. -/
theorem scalarEmits_take_succ (ws : List Nat) (m : Nat) (hm : m < ws.length) :
    scalarEmits (ws.take (m + 1))
      = scalarEmits (ws.take m)
        ++ [.single (.scalar (some (ws.get ⟨m, hm⟩)))] := by
  have h : ws[m]? = some ws[m] := List.getElem?_eq_getElem hm
  simp only [scalarEmits, List.get_eq_getElem]
  rw [List.take_succ, h]
  simp only [Option.toList_some, List.map_append, List.map_cons,
    List.map_nil]

theorem capOK_capOf (c : Nat) : CapOK c (capOf c) := by
  by_cases hc : c = 0
  · exact Or.inl ⟨by simp [capOf, hc], hc⟩
  · exact Or.inr ⟨c, by simp [capOf, hc], by omega, le_refl c⟩

/-- The per-word cost of the closed loop: at most `d + 1` extra edges before
the next acceptance. -/
theorem c1Measure_drop (L d x : Nat) (hx : x ≤ d) :
    (L + 1) * (d + 2) + x < (L + 1 + 1) * (d + 2) := by
  rw [Nat.succ_mul (L + 1) (d + 2)]
  exact Nat.add_lt_add_left (by omega) _

/-- `write` takes the `break` of its ready-wait loop when `TREADY` is absent
or sampled high (drivers.py lines 136-138), moving on to the next word. -/
theorem masterStep_sending_accept (bus : Bus) (tl : Bool) (σ : Sig)
    (idx : Nat) (rest : List Word)
    (h : (!bus.hasTREADY || truthy (σ.get TREADY)) = true) :
    masterStep bus tl σ (.sending idx rest) σ
      = beginWords bus tl idx σ rest := by
  simp [masterStep, h]

/-- `write` stays in its ready-wait loop when `TREADY` is sampled low
(drivers.py line 139). -/
theorem masterStep_sending_stall (bus : Bus) (tl : Bool) (σ : Sig)
    (idx : Nat) (rest : List Word)
    (h : (!bus.hasTREADY || truthy (σ.get TREADY)) = false) :
    masterStep bus tl σ (.sending idx rest) σ = (.sending idx rest, σ) := by
  simp [masterStep, h]

/-- Reading any signal other than `TLAST` through the optional final-word
`TLAST` assertion. -/
theorem Sig.get_ite_set_tlast (p : Prop) [Decidable p] (σ : Sig)
    (s : SignalName) (hs : s ≠ TLAST) :
    (if p then σ.set TLAST 1 else σ).get s = σ.get s := by
  split
  · exact Sig.get_set_other _ _ _ _ hs
  · rfl

/-- One edge of the `c1Run` closed loop (non-sentinel slave): the reachable
configurations of `C1Inv` are preserved, the post-write configuration is a
fixpoint, and otherwise the termination measure strictly decreases. -/
theorem c1_step (d c : Nat) (ws : List Nat) (st : SimState)
    (hinv : C1Inv d c ws st) :
    C1Inv d c ws (simStep fullBus ⟨false, false⟩ ⟨.delay d, c⟩ true st) ∧
    (st.master = .mdone →
      simStep fullBus ⟨false, false⟩ ⟨.delay d, c⟩ true st = st) ∧
    (st.master ≠ .mdone →
      c1Measure d (simStep fullBus ⟨false, false⟩ ⟨.delay d, c⟩ true st)
        < c1Measure d st) := by
  cases hinv with
  | doneP σ h1 h2 =>
    have hmon : monitorStep ⟨false, false⟩ fullBus σ [] = ([], []) := by
      rw [monitorStep_c1, validTransfer_fullBus]
      simp [truthy, h1]
    have hsl : slaveStep d c .waitingValid σ = (.waitingValid, σ) := by
      rw [slaveStep_not_valid d c _ σ h1]
    have hres : simStep fullBus ⟨false, false⟩ ⟨.delay d, c⟩ true
        ⟨σ, .mdone, some .waitingValid, [], scalarEmits ws⟩
        = ⟨σ, .mdone, some .waitingValid, [], scalarEmits ws⟩ := by
      simp [simStep, hmon, hsl, masterStep]
    rw [hres]
    exact ⟨C1Inv.doneP σ h1 h2, fun _ => rfl, fun h => absurd rfl h⟩
  | sendCounting σ m k hm h1 h2 h3 hk1 hkd =>
    have hv : σ.get TVALID ≠ 0 := by simp [h1]
    have hmon : monitorStep ⟨false, false⟩ fullBus σ [] = ([], []) := by
      rw [monitorStep_c1, validTransfer_fullBus]
      simp [truthy, h2]
    have hms : masterStep fullBus true σ
        (.sending (m + 1) (intWords (ws.drop (m + 1)))) σ
        = (.sending (m + 1) (intWords (ws.drop (m + 1))), σ) := by
      simp [masterStep, fullBus, truthy, h2]
    by_cases hk : k ≤ 1
    · have hsl : slaveStep d c (.counting k) σ
          = (.ready (capOf c), σ.set TREADY 1) := by
        rw [slaveStep_counting_valid d c k σ hv, if_pos hk]
      have hres : simStep fullBus ⟨false, false⟩ ⟨.delay d, c⟩ true
          ⟨σ, .sending (m + 1) (intWords (ws.drop (m + 1))),
            some (.counting k), [], scalarEmits (ws.take m)⟩
          = ⟨σ.set TREADY 1,
              .sending (m + 1) (intWords (ws.drop (m + 1))),
              some (.ready (capOf c)), [], scalarEmits (ws.take m)⟩ := by
        simp [simStep, hmon, hms, hsl]
      rw [hres]
      refine ⟨C1Inv.sendReady _ m (capOf c) hm ?_ ?_ ?_ (capOK_capOf c),
        ?_, ?_⟩
      · rw [Sig.get_set_other _ _ _ _ (by decide)]
        exact h1
      · exact Sig.get_set_same _ _ _
      · rw [Sig.get_set_other _ _ _ _ (by decide)]
        exact h3
      · intro h
        simp at h
      · intro _
        simp only [c1Measure]
        exact Nat.lt_add_of_pos_right (by omega)
    · have hsl : slaveStep d c (.counting k) σ = (.counting (k - 1), σ) := by
        rw [slaveStep_counting_valid d c k σ hv, if_neg hk]
      have hres : simStep fullBus ⟨false, false⟩ ⟨.delay d, c⟩ true
          ⟨σ, .sending (m + 1) (intWords (ws.drop (m + 1))),
            some (.counting k), [], scalarEmits (ws.take m)⟩
          = ⟨σ, .sending (m + 1) (intWords (ws.drop (m + 1))),
              some (.counting (k - 1)), [], scalarEmits (ws.take m)⟩ := by
        simp [simStep, hmon, hms, hsl]
      rw [hres]
      refine ⟨C1Inv.sendCounting σ m (k - 1) hm h1 h2 h3 (by omega)
        (by omega), ?_, ?_⟩
      · intro h
        simp at h
      · intro _
        simp only [c1Measure]
        exact Nat.add_lt_add_left (by omega) _
  | phase0 σ h1 h2 =>
    have hmon : monitorStep ⟨false, false⟩ fullBus σ [] = ([], []) := by
      rw [monitorStep_c1, validTransfer_fullBus]
      simp [truthy, h1]
    cases ws with
    | nil =>
      have hms : masterStep fullBus true σ (.start (intWords [])) σ
          = (.mdone, ((σ.set TVALID 1).set TLAST 0).set TVALID 0) := by
        simp [masterStep, writeBegin, beginWords_nil]
      have hσ'v : (((σ.set TVALID 1).set TLAST 0).set TVALID 0).get TVALID
          = 0 := Sig.get_set_same _ _ _
      have hσ'r : (((σ.set TVALID 1).set TLAST 0).set TVALID 0).get TREADY
          = 0 := by
        rw [Sig.get_set_other _ _ _ _ (by decide),
          Sig.get_set_other _ _ _ _ (by decide),
          Sig.get_set_other _ _ _ _ (by decide)]
        exact h2
      have hsl : slaveStep d c .waitingValid
          (((σ.set TVALID 1).set TLAST 0).set TVALID 0)
          = (.waitingValid, ((σ.set TVALID 1).set TLAST 0).set TVALID 0) := by
        rw [slaveStep_not_valid d c _ _ hσ'v]
      have hres : simStep fullBus ⟨false, false⟩ ⟨.delay d, c⟩ true
          ⟨σ, .start (intWords []), some .waitingValid, [], []⟩
          = ⟨((σ.set TVALID 1).set TLAST 0).set TVALID 0, .mdone,
              some .waitingValid, [], []⟩ := by
        simp [simStep, hmon, hms, hsl]
      rw [hres]
      refine ⟨C1Inv.doneP _ hσ'v hσ'r, ?_, ?_⟩
      · intro h
        simp at h
      · intro _
        simp [c1Measure, intWords]
    | cons w ws' =>
      have hms : masterStep fullBus true σ (.start (intWords (w :: ws'))) σ
          = (.sending 1 (intWords ws'),
              if ws'.isEmpty = true
              then ((σ.set TVALID 1).set TDATA w).set TLAST 1
              else (σ.set TVALID 1).set TDATA w) := by
        simp [masterStep, writeBegin, beginWords_int]
      have hg1 : (if ws'.isEmpty = true
          then ((σ.set TVALID 1).set TDATA w).set TLAST 1
          else (σ.set TVALID 1).set TDATA w).get TVALID = 1 := by
        rw [Sig.get_ite_set_tlast _ _ _ (by decide),
          Sig.get_set_other _ _ _ _ (by decide), Sig.get_set_same]
      have hg2 : (if ws'.isEmpty = true
          then ((σ.set TVALID 1).set TDATA w).set TLAST 1
          else (σ.set TVALID 1).set TDATA w).get TREADY = 0 := by
        rw [Sig.get_ite_set_tlast _ _ _ (by decide),
          Sig.get_set_other _ _ _ _ (by decide),
          Sig.get_set_other _ _ _ _ (by decide)]
        exact h2
      have hg3 : (if ws'.isEmpty = true
          then ((σ.set TVALID 1).set TDATA w).set TLAST 1
          else (σ.set TVALID 1).set TDATA w).get TDATA = w := by
        rw [Sig.get_ite_set_tlast _ _ _ (by decide), Sig.get_set_same]
      have hgv : (if ws'.isEmpty = true
          then ((σ.set TVALID 1).set TDATA w).set TLAST 1
          else (σ.set TVALID 1).set TDATA w).get TVALID ≠ 0 := by
        rw [hg1]
        omega
      by_cases hd0 : d = 0
      · have hsl : slaveStep d c .waitingValid
            (if ws'.isEmpty = true
             then ((σ.set TVALID 1).set TDATA w).set TLAST 1
             else (σ.set TVALID 1).set TDATA w)
            = (.ready (capOf c),
                (if ws'.isEmpty = true
                 then ((σ.set TVALID 1).set TDATA w).set TLAST 1
                 else (σ.set TVALID 1).set TDATA w).set TREADY 1) := by
          rw [slaveStep_waiting_valid d c _ hgv]
          simp [startDelay, hd0]
        have hres : simStep fullBus ⟨false, false⟩ ⟨.delay d, c⟩ true
            ⟨σ, .start (intWords (w :: ws')), some .waitingValid, [], []⟩
            = ⟨(if ws'.isEmpty = true
                 then ((σ.set TVALID 1).set TDATA w).set TLAST 1
                 else (σ.set TVALID 1).set TDATA w).set TREADY 1,
                .sending 1 (intWords ws'), some (.ready (capOf c)), [],
                []⟩ := by
          simp only [simStep, hmon, hms, hsl, List.append_nil]
        rw [hres]
        refine ⟨C1Inv.sendReady _ 0 (capOf c) (by simp) ?_ ?_ ?_
          (capOK_capOf c), ?_, ?_⟩
        · rw [Sig.get_set_other _ _ _ _ (by decide)]
          exact hg1
        · exact Sig.get_set_same _ _ _
        · rw [Sig.get_set_other _ _ _ _ (by decide)]
          exact hg3
        · intro h
          simp at h
        · intro _
          simp only [c1Measure]
          simp only [intWords, List.length_map, List.length_cons]
          simpa using c1Measure_drop ws'.length d 0 (Nat.zero_le d)
      · have hsl : slaveStep d c .waitingValid
            (if ws'.isEmpty = true
             then ((σ.set TVALID 1).set TDATA w).set TLAST 1
             else (σ.set TVALID 1).set TDATA w)
            = (.counting d,
                if ws'.isEmpty = true
                then ((σ.set TVALID 1).set TDATA w).set TLAST 1
                else (σ.set TVALID 1).set TDATA w) := by
          rw [slaveStep_waiting_valid d c _ hgv]
          simp [startDelay, hd0]
        have hres : simStep fullBus ⟨false, false⟩ ⟨.delay d, c⟩ true
            ⟨σ, .start (intWords (w :: ws')), some .waitingValid, [], []⟩
            = ⟨(if ws'.isEmpty = true
                 then ((σ.set TVALID 1).set TDATA w).set TLAST 1
                 else (σ.set TVALID 1).set TDATA w),
                .sending 1 (intWords ws'), some (.counting d), [], []⟩ := by
          simp only [simStep, hmon, hms, hsl, List.append_nil]
        rw [hres]
        refine ⟨C1Inv.sendCounting _ 0 d (by simp) hg1 hg2 hg3 (by omega)
          (le_refl d), ?_, ?_⟩
        · intro h
          simp at h
        · intro _
          simp only [c1Measure]
          simp only [intWords, List.length_map, List.length_cons]
          exact c1Measure_drop ws'.length d d (le_refl d)
  | sendReady σ m cap hm h1 h2 h3 hcap =>
    have hv1 : truthy (σ.get TVALID) = true := by simp [truthy, h1]
    have hr1 : truthy (σ.get TREADY) = true := by simp [truthy, h2]
    have hfb : (!fullBus.hasTREADY || truthy (σ.get TREADY)) = true := by
      simp [fullBus, hr1]
    have hmon : monitorStep ⟨false, false⟩ fullBus σ []
        = ([], [.single (.scalar (some (ws.get ⟨m, hm⟩)))]) := by
      rw [monitorStep_c1, validTransfer_fullBus]
      simp [hv1, hr1, h3]
    have hout : scalarEmits (ws.take m)
        ++ [.single (.scalar (some (ws.get ⟨m, hm⟩)))]
        = scalarEmits (ws.take (m + 1)) := (scalarEmits_take_succ ws m hm).symm
    cases hdrop : ws.drop (m + 1) with
    | nil =>
      have hlen : ws.length = m + 1 := by
        have hle := List.drop_eq_nil_iff_le.mp hdrop
        omega
      have htake : ws.take (m + 1) = ws := by
        rw [← hlen]
        exact List.take_length ws
      have hms : masterStep fullBus true σ (.sending (m + 1) (intWords []))
          σ = (.mdone, (σ.set TLAST 0).set TVALID 0) := by
        rw [masterStep_sending_accept fullBus true σ (m + 1) _ hfb,
          beginWords_nil]
      have hσv : ((σ.set TLAST 0).set TVALID 0).get TVALID = 0 :=
        Sig.get_set_same _ _ _
      have hsl : slaveStep d c (.ready cap) ((σ.set TLAST 0).set TVALID 0)
          = (.waitingValid,
              ((σ.set TLAST 0).set TVALID 0).set TREADY 0) := by
        rw [slaveStep_not_valid d c _ _ hσv]
      have hres : simStep fullBus ⟨false, false⟩ ⟨.delay d, c⟩ true
          ⟨σ, .sending (m + 1) (intWords []), some (.ready cap), [],
            scalarEmits (ws.take m)⟩
          = ⟨((σ.set TLAST 0).set TVALID 0).set TREADY 0, .mdone,
              some .waitingValid, [], scalarEmits ws⟩ := by
        simp only [simStep, hmon, hms, hsl]
        rw [hout, htake]
      rw [hres]
      refine ⟨C1Inv.doneP _ ?_ (Sig.get_set_same _ _ _), ?_, ?_⟩
      · rw [Sig.get_set_other _ _ _ _ (by decide)]
        exact hσv
      · intro h
        simp at h
      · intro _
        simp [c1Measure, intWords]
    | cons w' rest' =>
      have hm1 : m + 1 < ws.length := by
        have hld : (ws.drop (m + 1)).length = ws.length - (m + 1) :=
          List.length_drop (m + 1) ws
        rw [hdrop] at hld
        simp at hld
        omega
      have hw' : ws.get ⟨m + 1, hm1⟩ = w' := by
        have hq : (ws.drop (m + 1))[0]? = ws[m + 1 + 0]? :=
          List.getElem?_drop ws (m + 1) 0
        rw [hdrop] at hq
        simp only [List.getElem?_cons_zero, Nat.add_zero] at hq
        rw [List.get_eq_getElem]
        rw [List.getElem?_eq_getElem hm1] at hq
        exact (Option.some_inj.mp hq).symm
      have hrest : rest' = ws.drop (m + 1 + 1) := by
        have ht := List.tail_drop ws (m + 1)
        rw [hdrop] at ht
        simpa using ht
      have hms : masterStep fullBus true σ
          (.sending (m + 1) (intWords (w' :: rest'))) σ
          = (.sending (m + 1 + 1) (intWords rest'),
              if rest'.isEmpty = true
              then (σ.set TDATA w').set TLAST 1
              else σ.set TDATA w') := by
        rw [masterStep_sending_accept fullBus true σ (m + 1) _ hfb,
          beginWords_int]
      have hg1 : (if rest'.isEmpty = true
          then (σ.set TDATA w').set TLAST 1
          else σ.set TDATA w').get TVALID = 1 := by
        rw [Sig.get_ite_set_tlast _ _ _ (by decide),
          Sig.get_set_other _ _ _ _ (by decide)]
        exact h1
      have hg2 : (if rest'.isEmpty = true
          then (σ.set TDATA w').set TLAST 1
          else σ.set TDATA w').get TREADY = 1 := by
        rw [Sig.get_ite_set_tlast _ _ _ (by decide),
          Sig.get_set_other _ _ _ _ (by decide)]
        exact h2
      have hg3 : (if rest'.isEmpty = true
          then (σ.set TDATA w').set TLAST 1
          else σ.set TDATA w').get TDATA = ws.get ⟨m + 1, hm1⟩ := by
        rw [Sig.get_ite_set_tlast _ _ _ (by decide), Sig.get_set_same, hw']
      have hgv : (if rest'.isEmpty = true
          then (σ.set TDATA w').set TLAST 1
          else σ.set TDATA w').get TVALID ≠ 0 := by
        rw [hg1]
        omega
      cases cap with
      | none =>
        have hc0 : c = 0 := by
          rcases hcap with ⟨_, hc0⟩ | ⟨j, hj, _⟩
          · exact hc0
          · cases hj
        have hsl : slaveStep d c (.ready none)
            (if rest'.isEmpty = true
             then (σ.set TDATA w').set TLAST 1
             else σ.set TDATA w')
            = (.ready none,
                if rest'.isEmpty = true
                then (σ.set TDATA w').set TLAST 1
                else σ.set TDATA w') :=
          slaveStep_ready_none_valid d c _ hgv
        have hres : simStep fullBus ⟨false, false⟩ ⟨.delay d, c⟩ true
            ⟨σ, .sending (m + 1) (intWords (w' :: rest')),
              some (.ready none), [], scalarEmits (ws.take m)⟩
            = ⟨(if rest'.isEmpty = true
                 then (σ.set TDATA w').set TLAST 1
                 else σ.set TDATA w'),
                .sending (m + 1 + 1) (intWords rest'), some (.ready none),
                [], scalarEmits (ws.take (m + 1))⟩ := by
          simp only [simStep, hmon, hms, hsl]
          rw [hout]
        rw [hres]
        rw [hrest]
        refine ⟨C1Inv.sendReady _ (m + 1) none hm1 ?_ ?_ ?_
          (Or.inl ⟨rfl, hc0⟩), ?_, ?_⟩
        · rw [← hrest]
          exact hg1
        · rw [← hrest]
          exact hg2
        · rw [← hrest]
          exact hg3
        · intro h
          simp at h
        · intro _
          simp only [c1Measure]
          simp only [intWords, List.length_map, List.length_cons]
          rw [← hrest]
          simpa using c1Measure_drop rest'.length d 0 (Nat.zero_le d)
      | some j =>
        have hj1c : 1 ≤ j ∧ j ≤ c := by
          rcases hcap with ⟨hn, _⟩ | ⟨j2, hj2, hj1, hjc⟩
          · cases hn
          · cases hj2
            exact ⟨hj1, hjc⟩
        by_cases hj : j ≤ 1
        · by_cases hd0 : d = 0
          · have hsl : slaveStep d c (.ready (some j))
                (if rest'.isEmpty = true
                 then (σ.set TDATA w').set TLAST 1
                 else σ.set TDATA w')
                = (.ready (capOf c),
                    ((if rest'.isEmpty = true
                      then (σ.set TDATA w').set TLAST 1
                      else σ.set TDATA w').set TREADY 0).set TREADY 1) := by
              rw [slaveStep_ready_some_valid d c j _ hgv, if_pos hj]
              simp [startDelay, hd0]
            have hres : simStep fullBus ⟨false, false⟩ ⟨.delay d, c⟩ true
                ⟨σ, .sending (m + 1) (intWords (w' :: rest')),
                  some (.ready (some j)), [], scalarEmits (ws.take m)⟩
                = ⟨(if rest'.isEmpty = true
                     then (σ.set TDATA w').set TLAST 1
                     else σ.set TDATA w').set TREADY 1,
                    .sending (m + 1 + 1) (intWords rest'),
                    some (.ready (capOf c)), [],
                    scalarEmits (ws.take (m + 1))⟩ := by
              simp only [simStep, hmon, hms, hsl]
              rw [hout, Sig.set_set]
            rw [hres]
            rw [hrest]
            refine ⟨C1Inv.sendReady _ (m + 1) (capOf c) hm1 ?_ ?_ ?_
              (capOK_capOf c), ?_, ?_⟩
            · rw [Sig.get_set_other _ _ _ _ (by decide), ← hrest]
              exact hg1
            · exact Sig.get_set_same _ _ _
            · rw [Sig.get_set_other _ _ _ _ (by decide), ← hrest]
              exact hg3
            · intro h
              simp at h
            · intro _
              simp only [c1Measure]
              simp only [intWords, List.length_map, List.length_cons]
              rw [← hrest]
              simpa using c1Measure_drop rest'.length d 0 (Nat.zero_le d)
          · have hsl : slaveStep d c (.ready (some j))
                (if rest'.isEmpty = true
                 then (σ.set TDATA w').set TLAST 1
                 else σ.set TDATA w')
                = (.counting d,
                    (if rest'.isEmpty = true
                     then (σ.set TDATA w').set TLAST 1
                     else σ.set TDATA w').set TREADY 0) := by
              rw [slaveStep_ready_some_valid d c j _ hgv, if_pos hj]
              simp [startDelay, hd0]
            have hres : simStep fullBus ⟨false, false⟩ ⟨.delay d, c⟩ true
                ⟨σ, .sending (m + 1) (intWords (w' :: rest')),
                  some (.ready (some j)), [], scalarEmits (ws.take m)⟩
                = ⟨(if rest'.isEmpty = true
                     then (σ.set TDATA w').set TLAST 1
                     else σ.set TDATA w').set TREADY 0,
                    .sending (m + 1 + 1) (intWords rest'),
                    some (.counting d), [],
                    scalarEmits (ws.take (m + 1))⟩ := by
              simp only [simStep, hmon, hms, hsl]
              rw [hout]
            rw [hres]
            rw [hrest]
            refine ⟨C1Inv.sendCounting _ (m + 1) d hm1 ?_ ?_ ?_ (by omega)
              (le_refl d), ?_, ?_⟩
            · rw [Sig.get_set_other _ _ _ _ (by decide), ← hrest]
              exact hg1
            · exact Sig.get_set_same _ _ _
            · rw [Sig.get_set_other _ _ _ _ (by decide), ← hrest]
              exact hg3
            · intro h
              simp at h
            · intro _
              simp only [c1Measure]
              simp only [intWords, List.length_map, List.length_cons]
              rw [← hrest]
              exact c1Measure_drop rest'.length d d (le_refl d)
        · have hsl : slaveStep d c (.ready (some j))
              (if rest'.isEmpty = true
               then (σ.set TDATA w').set TLAST 1
               else σ.set TDATA w')
              = (.ready (some (j - 1)),
                  if rest'.isEmpty = true
                  then (σ.set TDATA w').set TLAST 1
                  else σ.set TDATA w') := by
            rw [slaveStep_ready_some_valid d c j _ hgv, if_neg hj]
          have hres : simStep fullBus ⟨false, false⟩ ⟨.delay d, c⟩ true
              ⟨σ, .sending (m + 1) (intWords (w' :: rest')),
                some (.ready (some j)), [], scalarEmits (ws.take m)⟩
              = ⟨(if rest'.isEmpty = true
                   then (σ.set TDATA w').set TLAST 1
                   else σ.set TDATA w'),
                  .sending (m + 1 + 1) (intWords rest'),
                  some (.ready (some (j - 1))), [],
                  scalarEmits (ws.take (m + 1))⟩ := by
            simp only [simStep, hmon, hms, hsl]
            rw [hout]
          rw [hres]
          rw [hrest]
          refine ⟨C1Inv.sendReady _ (m + 1) (some (j - 1)) hm1 ?_ ?_ ?_
            (Or.inr ⟨j - 1, rfl, by omega, by omega⟩), ?_, ?_⟩
          · rw [← hrest]
            exact hg1
          · rw [← hrest]
            exact hg2
          · rw [← hrest]
            exact hg3
          · intro h
            simp at h
          · intro _
            simp only [c1Measure]
            simp only [intWords, List.length_map, List.length_cons]
            rw [← hrest]
            simpa using c1Measure_drop rest'.length d 0 (Nat.zero_le d)

/-- A fixpoint of the step function stays fixed under iteration. -/
theorem iterate_fix (f : SimState → SimState) (st : SimState)
    (hfix : f st = st) : ∀ n, f^[n] st = st := by
  intro n
  induction n with
  | zero => rfl
  | succ n ih => rw [Function.iterate_succ_apply', ih, hfix]

/-- An invariant preserved by the step function holds along the run. -/
theorem iterate_invariant (f : SimState → SimState) (P : SimState → Prop)
    (hstep : ∀ st, P st → P (f st)) :
    ∀ n st, P st → P (f^[n] st) := by
  intro n
  induction n with
  | zero => exact fun st h => h
  | succ n ih =>
    intro st h
    rw [Function.iterate_succ_apply]
    exact ih (f st) (hstep st h)

/-- Generic liveness: an invariant whose step is a fixpoint once the write
has returned and strictly decreases a measure otherwise eventually pins the
monitor output. -/
theorem iterate_reaches (f : SimState → SimState) (P : SimState → Prop)
    (μ : SimState → Nat) (out : List MonEmit)
    (hstep : ∀ st, P st → P (f st) ∧ (st.master = .mdone → f st = st) ∧
      (st.master ≠ .mdone → μ (f st) < μ st))
    (hout : ∀ st, P st → st.master = .mdone → st.out = out) :
    ∀ N0 st, μ st ≤ N0 → P st →
      ∃ N, ∀ n, N ≤ n → (f^[n] st).out = out := by
  intro N0
  induction N0 with
  | zero =>
    intro st hle hP
    obtain ⟨h1, h2, h3⟩ := hstep st hP
    by_cases hm : st.master = .mdone
    · refine ⟨0, fun n _ => ?_⟩
      rw [iterate_fix f st (h2 hm) n]
      exact hout st hP hm
    · exact absurd (h3 hm) (by omega)
  | succ N0 ih =>
    intro st hle hP
    obtain ⟨h1, h2, h3⟩ := hstep st hP
    by_cases hm : st.master = .mdone
    · refine ⟨0, fun n _ => ?_⟩
      rw [iterate_fix f st (h2 hm) n]
      exact hout st hP hm
    · obtain ⟨N, hN⟩ := ih (f st) (by have := h3 hm; omega) h1
      refine ⟨N + 1, fun n hn => ?_⟩
      obtain ⟨k, rfl⟩ : ∃ k, n = k + 1 := ⟨n - 1, by omega⟩
      rw [Function.iterate_succ_apply]
      exact hN k (by omega)

/-- Every reachable configuration of the non-sentinel closed loop has
delivered exactly a prefix of the written words. -/
theorem c1Inv_out (d c : Nat) (ws : List Nat) (st : SimState)
    (hinv : C1Inv d c ws st) :
    ∃ m, m ≤ ws.length ∧ st.out = scalarEmits (ws.take m) := by
  cases hinv with
  | phase0 σ h1 h2 => exact ⟨0, Nat.zero_le _, by simp [scalarEmits]⟩
  | sendCounting σ m k hm h1 h2 h3 hk1 hkd => exact ⟨m, by omega, rfl⟩
  | sendReady σ m cap hm h1 h2 h3 hcap => exact ⟨m, by omega, rfl⟩
  | doneP σ h1 h2 =>
    exact ⟨ws.length, le_refl _, by simp [List.take_length]⟩

/-- Once the write has returned, the whole sequence has been delivered. -/
theorem c1Inv_done_out (d c : Nat) (ws : List Nat) (st : SimState)
    (hinv : C1Inv d c ws st) (h : st.master = .mdone) :
    st.out = scalarEmits ws := by
  cases hinv <;> simp_all

/-- The `c1Run` closed loop starts in the `phase0` configuration. -/
theorem c1_init (d c : Nat) (ws : List Nat) :
    C1Inv d c ws
      (simInit fullBus ⟨.delay d, c⟩ (intWords ws) true true Sig.zero) := by
  have hsi : simInit fullBus ⟨.delay d, c⟩ (intWords ws) true true Sig.zero
      = ⟨Sig.zero, .start (intWords ws), some .waitingValid, [], []⟩ := rfl
  rw [hsi]
  exact C1Inv.phase0 _ rfl rfl

/-- One edge of the `c1Run` closed loop with the always-ready sentinel slave
(`TREADY` preset high, no slave coroutine): the `C1SInv` configurations are
preserved, the post-write configuration is a fixpoint, and otherwise the
measure decreases. -/
theorem c1s_step (c0 : Nat) (ws : List Nat) (st : SimState)
    (hinv : C1SInv ws st) :
    C1SInv ws (simStep fullBus ⟨false, false⟩ ⟨.alwaysReady, c0⟩ true st) ∧
    (st.master = .mdone →
      simStep fullBus ⟨false, false⟩ ⟨.alwaysReady, c0⟩ true st = st) ∧
    (st.master ≠ .mdone →
      c1Measure 0 (simStep fullBus ⟨false, false⟩ ⟨.alwaysReady, c0⟩ true st)
        < c1Measure 0 st) := by
  cases hinv with
  | doneP σ h1 h2 =>
    have hmon : monitorStep ⟨false, false⟩ fullBus σ [] = ([], []) := by
      rw [monitorStep_c1, validTransfer_fullBus]
      simp [truthy, h1]
    have hres : simStep fullBus ⟨false, false⟩ ⟨.alwaysReady, c0⟩ true
        ⟨σ, .mdone, none, [], scalarEmits ws⟩
        = ⟨σ, .mdone, none, [], scalarEmits ws⟩ := by
      simp [simStep, hmon, masterStep]
    rw [hres]
    exact ⟨C1SInv.doneP σ h1 h2, fun _ => rfl, fun h => absurd rfl h⟩
  | phase0 σ h1 h2 =>
    have hmon : monitorStep ⟨false, false⟩ fullBus σ [] = ([], []) := by
      rw [monitorStep_c1, validTransfer_fullBus]
      simp [truthy, h1]
    cases ws with
    | nil =>
      have hms : masterStep fullBus true σ (.start (intWords [])) σ
          = (.mdone, ((σ.set TVALID 1).set TLAST 0).set TVALID 0) := by
        simp [masterStep, writeBegin, beginWords_nil]
      have hres : simStep fullBus ⟨false, false⟩ ⟨.alwaysReady, c0⟩ true
          ⟨σ, .start (intWords []), none, [], []⟩
          = ⟨((σ.set TVALID 1).set TLAST 0).set TVALID 0, .mdone, none, [],
              []⟩ := by
        simp [simStep, hmon, hms]
      rw [hres]
      refine ⟨C1SInv.doneP _ (Sig.get_set_same _ _ _) ?_, ?_, ?_⟩
      · rw [Sig.get_set_other _ _ _ _ (by decide),
          Sig.get_set_other _ _ _ _ (by decide),
          Sig.get_set_other _ _ _ _ (by decide)]
        exact h2
      · intro h
        simp at h
      · intro _
        simp [c1Measure, intWords]
    | cons w ws' =>
      have hms : masterStep fullBus true σ (.start (intWords (w :: ws'))) σ
          = (.sending 1 (intWords ws'),
              if ws'.isEmpty = true
              then ((σ.set TVALID 1).set TDATA w).set TLAST 1
              else (σ.set TVALID 1).set TDATA w) := by
        simp [masterStep, writeBegin, beginWords_int]
      have hres : simStep fullBus ⟨false, false⟩ ⟨.alwaysReady, c0⟩ true
          ⟨σ, .start (intWords (w :: ws')), none, [], []⟩
          = ⟨(if ws'.isEmpty = true
               then ((σ.set TVALID 1).set TDATA w).set TLAST 1
               else (σ.set TVALID 1).set TDATA w),
              .sending 1 (intWords ws'), none, [], []⟩ := by
        simp only [simStep, hmon, hms, List.append_nil]
      rw [hres]
      refine ⟨C1SInv.sending _ 0 (by simp) ?_ ?_ ?_, ?_, ?_⟩
      · rw [Sig.get_ite_set_tlast _ _ _ (by decide),
          Sig.get_set_other _ _ _ _ (by decide), Sig.get_set_same]
      · rw [Sig.get_ite_set_tlast _ _ _ (by decide),
          Sig.get_set_other _ _ _ _ (by decide),
          Sig.get_set_other _ _ _ _ (by decide)]
        exact h2
      · rw [Sig.get_ite_set_tlast _ _ _ (by decide), Sig.get_set_same]
        rfl
      · intro h
        simp at h
      · intro _
        simp only [c1Measure]
        simp only [intWords, List.length_map, List.length_cons]
        simpa using c1Measure_drop ws'.length 0 0 (Nat.zero_le 0)
  | sending σ m hm h1 h2 h3 =>
    have hv1 : truthy (σ.get TVALID) = true := by simp [truthy, h1]
    have hr1 : truthy (σ.get TREADY) = true := by simp [truthy, h2]
    have hfb : (!fullBus.hasTREADY || truthy (σ.get TREADY)) = true := by
      simp [fullBus, hr1]
    have hmon : monitorStep ⟨false, false⟩ fullBus σ []
        = ([], [.single (.scalar (some (ws.get ⟨m, hm⟩)))]) := by
      rw [monitorStep_c1, validTransfer_fullBus]
      simp [hv1, hr1, h3]
    have hout : scalarEmits (ws.take m)
        ++ [.single (.scalar (some (ws.get ⟨m, hm⟩)))]
        = scalarEmits (ws.take (m + 1)) := (scalarEmits_take_succ ws m hm).symm
    cases hdrop : ws.drop (m + 1) with
    | nil =>
      have hlen : ws.length = m + 1 := by
        have hle := List.drop_eq_nil_iff_le.mp hdrop
        omega
      have htake : ws.take (m + 1) = ws := by
        rw [← hlen]
        exact List.take_length ws
      have hms : masterStep fullBus true σ (.sending (m + 1) (intWords []))
          σ = (.mdone, (σ.set TLAST 0).set TVALID 0) := by
        rw [masterStep_sending_accept fullBus true σ (m + 1) _ hfb,
          beginWords_nil]
      have hres : simStep fullBus ⟨false, false⟩ ⟨.alwaysReady, c0⟩ true
          ⟨σ, .sending (m + 1) (intWords []), none, [],
            scalarEmits (ws.take m)⟩
          = ⟨(σ.set TLAST 0).set TVALID 0, .mdone, none, [],
              scalarEmits ws⟩ := by
        simp only [simStep, hmon, hms]
        rw [hout, htake]
      rw [hres]
      refine ⟨C1SInv.doneP _ (Sig.get_set_same _ _ _) ?_, ?_, ?_⟩
      · rw [Sig.get_set_other _ _ _ _ (by decide),
          Sig.get_set_other _ _ _ _ (by decide)]
        exact h2
      · intro h
        simp at h
      · intro _
        simp [c1Measure, intWords]
    | cons w' rest' =>
      have hm1 : m + 1 < ws.length := by
        have hld : (ws.drop (m + 1)).length = ws.length - (m + 1) :=
          List.length_drop (m + 1) ws
        rw [hdrop] at hld
        simp at hld
        omega
      have hw' : ws.get ⟨m + 1, hm1⟩ = w' := by
        have hq : (ws.drop (m + 1))[0]? = ws[m + 1 + 0]? :=
          List.getElem?_drop ws (m + 1) 0
        rw [hdrop] at hq
        simp only [List.getElem?_cons_zero, Nat.add_zero] at hq
        rw [List.get_eq_getElem]
        rw [List.getElem?_eq_getElem hm1] at hq
        exact (Option.some_inj.mp hq).symm
      have hrest : rest' = ws.drop (m + 1 + 1) := by
        have ht := List.tail_drop ws (m + 1)
        rw [hdrop] at ht
        simpa using ht
      have hms : masterStep fullBus true σ
          (.sending (m + 1) (intWords (w' :: rest'))) σ
          = (.sending (m + 1 + 1) (intWords rest'),
              if rest'.isEmpty = true
              then (σ.set TDATA w').set TLAST 1
              else σ.set TDATA w') := by
        rw [masterStep_sending_accept fullBus true σ (m + 1) _ hfb,
          beginWords_int]
      have hg1 : (if rest'.isEmpty = true
          then (σ.set TDATA w').set TLAST 1
          else σ.set TDATA w').get TVALID = 1 := by
        rw [Sig.get_ite_set_tlast _ _ _ (by decide),
          Sig.get_set_other _ _ _ _ (by decide)]
        exact h1
      have hg2 : (if rest'.isEmpty = true
          then (σ.set TDATA w').set TLAST 1
          else σ.set TDATA w').get TREADY = 1 := by
        rw [Sig.get_ite_set_tlast _ _ _ (by decide),
          Sig.get_set_other _ _ _ _ (by decide)]
        exact h2
      have hg3 : (if rest'.isEmpty = true
          then (σ.set TDATA w').set TLAST 1
          else σ.set TDATA w').get TDATA = ws.get ⟨m + 1, hm1⟩ := by
        rw [Sig.get_ite_set_tlast _ _ _ (by decide), Sig.get_set_same, hw']
      have hres : simStep fullBus ⟨false, false⟩ ⟨.alwaysReady, c0⟩ true
          ⟨σ, .sending (m + 1) (intWords (w' :: rest')), none, [],
            scalarEmits (ws.take m)⟩
          = ⟨(if rest'.isEmpty = true
               then (σ.set TDATA w').set TLAST 1
               else σ.set TDATA w'),
              .sending (m + 1 + 1) (intWords rest'), none, [],
              scalarEmits (ws.take (m + 1))⟩ := by
        simp only [simStep, hmon, hms]
        rw [hout]
      rw [hres]
      rw [hrest]
      refine ⟨C1SInv.sending _ (m + 1) hm1 ?_ ?_ ?_, ?_, ?_⟩
      · rw [← hrest]
        exact hg1
      · rw [← hrest]
        exact hg2
      · rw [← hrest]
        exact hg3
      · intro h
        simp at h
      · intro _
        simp only [c1Measure]
        simp only [intWords, List.length_map, List.length_cons]
        rw [← hrest]
        simpa using c1Measure_drop rest'.length 0 0 (Nat.zero_le 0)

/-- Sentinel-slave analogue of `c1Inv_out`. -/
theorem c1sInv_out (ws : List Nat) (st : SimState) (hinv : C1SInv ws st) :
    ∃ m, m ≤ ws.length ∧ st.out = scalarEmits (ws.take m) := by
  cases hinv with
  | phase0 σ h1 h2 => exact ⟨0, Nat.zero_le _, by simp [scalarEmits]⟩
  | sending σ m hm h1 h2 h3 => exact ⟨m, by omega, rfl⟩
  | doneP σ h1 h2 =>
    exact ⟨ws.length, le_refl _, by simp [List.take_length]⟩

/-- Sentinel-slave analogue of `c1Inv_done_out`. -/
theorem c1sInv_done_out (ws : List Nat) (st : SimState)
    (hinv : C1SInv ws st) (h : st.master = .mdone) :
    st.out = scalarEmits ws := by
  cases hinv <;> simp_all

/-- The sentinel-slave closed loop starts in the `phase0` configuration. -/
theorem c1s_init (c0 : Nat) (ws : List Nat) :
    C1SInv ws
      (simInit fullBus ⟨.alwaysReady, c0⟩ (intWords ws) true true
        Sig.zero) := by
  have hsi : simInit fullBus ⟨.alwaysReady, c0⟩ (intWords ws) true true
      Sig.zero
      = ⟨Sig.zero.set TREADY 1, .start (intWords ws), none, [], []⟩ := rfl
  rw [hsi]
  exact C1SInv.phase0 _ rfl rfl

/-- **C1**: for every sequence of transaction values written by
`Axi4StreamMaster.write` and every Slave `tready_delay`/
`consecutive_transfers` configuration (the always-ready sentinel included),
the non-packet Monitor delivers, at every edge, exactly a prefix of the
written values in writing order — no loss, duplication or reordering — and
from some edge on it has delivered exactly the whole sequence. -/
theorem c1_order_preservation (ws : List Nat) (scfg : SlaveCfg) :
    (∀ n, ∃ m, m ≤ ws.length ∧
      (c1Run scfg ws n).out = scalarEmits (ws.take m)) ∧
    (∃ N, ∀ n, N ≤ n → (c1Run scfg ws n).out = scalarEmits ws) := by
  obtain ⟨td, c0⟩ := scfg
  cases td with
  | alwaysReady =>
    have hrun : ∀ n, c1Run ⟨.alwaysReady, c0⟩ ws n
        = (simStep fullBus ⟨false, false⟩ ⟨.alwaysReady, c0⟩ true)^[n]
          (simInit fullBus ⟨.alwaysReady, c0⟩ (intWords ws) true true
            Sig.zero) := fun _ => rfl
    constructor
    · intro n
      have hP := iterate_invariant _ (C1SInv ws)
        (fun st h => (c1s_step c0 ws st h).1) n _ (c1s_init c0 ws)
      rw [hrun n]
      exact c1sInv_out ws _ hP
    · obtain ⟨N, hN⟩ := iterate_reaches _ (C1SInv ws) (c1Measure 0)
        (scalarEmits ws) (c1s_step c0 ws) (c1sInv_done_out ws)
        (c1Measure 0 (simInit fullBus ⟨.alwaysReady, c0⟩ (intWords ws)
          true true Sig.zero)) _ (le_refl _) (c1s_init c0 ws)
      refine ⟨N, fun n hn => ?_⟩
      rw [hrun n]
      exact hN n hn
  | delay d =>
    have hrun : ∀ n, c1Run ⟨.delay d, c0⟩ ws n
        = (simStep fullBus ⟨false, false⟩ ⟨.delay d, c0⟩ true)^[n]
          (simInit fullBus ⟨.delay d, c0⟩ (intWords ws) true true
            Sig.zero) := fun _ => rfl
    constructor
    · intro n
      have hP := iterate_invariant _ (C1Inv d c0 ws)
        (fun st h => (c1_step d c0 ws st h).1) n _ (c1_init d c0 ws)
      rw [hrun n]
      exact c1Inv_out d c0 ws _ hP
    · obtain ⟨N, hN⟩ := iterate_reaches _ (C1Inv d c0 ws) (c1Measure d)
        (scalarEmits ws) (c1_step d c0 ws) (c1Inv_done_out d c0 ws)
        (c1Measure d (simInit fullBus ⟨.delay d, c0⟩ (intWords ws)
          true true Sig.zero)) _ (le_refl _) (c1_init d c0 ws)
      refine ⟨N, fun n hn => ?_⟩
      rw [hrun n]
      exact hN n hn

theorem c1_order_preservation_witness :
    ∃ m, m ≤ List.length [7, 8] ∧
      (c1Run ⟨.delay 2, 2⟩ [7, 8] 9).out = scalarEmits ([7, 8].take m) :=
  (c1_order_preservation [7, 8] ⟨.delay 2, 2⟩).1 9

end Axi4StreamModel
